import Mathlib

/-!
Verification of the products/cache subsystem of the auth-service repository.

The definitions below are a shallow embedding of the TypeScript source:
* `src/repositories/products/productRepository.ts` (cursor pagination over MySQL),
* `src/services/cache.ts` (cache-with-lock, poll/backoff),
* `src/services/externalApiA.ts` (circuit breaker),
* `src/services/productsCache.ts` (versioned cache keys),
* `src/utils/stableStringify.ts` (order-independent serialization),
* `src/controllers/productsController.ts` (query validation).

SQL semantics are embedded as list operations: WHERE is `List.filter`,
ORDER BY is `List.insertionSort` with the comparator built from the ORDER BY
clause, LIMIT is `List.take`.  Machine numbers are modelled as `Int`/`Nat`
(prices are exact decimals in MySQL; timestamps are millisecond counts).

The file is organised as definitions first, then the theorems.
-/

namespace AuthSvc

/-! ### Generic toolkit: sortedness with a Bool comparator -/

/-- Strict version of a Bool comparator: `a` strictly before `b`. -/
def strictLt {α : Type} (le : α → α → Bool) (a b : α) : Prop :=
  le a b = true ∧ ¬ le b a = true

/-! ### Data model for products and the pagination engine
(`src/types/products.ts`, `src/repositories/products/productRepository.ts`) -/

/-- A row of the `products` table.  `price` is MySQL DECIMAL, modelled as an
exact integer number of minor units; `createdAt` is a millisecond timestamp. -/
structure Product where
  id : Nat
  name : String
  description : Option String
  price : Int
  category : String
  createdAt : Nat
deriving DecidableEq, Repr

inductive ProductSortBy where
  | createdAt
  | price
  | name
deriving DecidableEq, Repr

inductive SortOrder where
  | asc
  | desc
deriving DecidableEq, Repr

/-- Value of a sort column.  The three sortable columns have three SQL types;
`date` carries the millisecond timestamp (the ISO-8601 round trip through the
cursor is value-preserving, so the cursor carries the timestamp itself). -/
inductive SVal where
  | num (n : Int)
  | str (s : String)
  | date (t : Nat)
deriving DecidableEq, Repr

def svalTag : SVal → Nat
  | .num _ => 0
  | .str _ => 1
  | .date _ => 2

/-- SQL `<` between two values of the sort column.  Within one query both
operands come from the same column so they have the same constructor; the
cross-constructor case (never reached) falls back to comparing tags so that
the order is total. -/
def svalLt : SVal → SVal → Bool
  | .num a, .num b => decide (a < b)
  | .str a, .str b => decide (a < b)
  | .date a, .date b => decide (a < b)
  | x, y => decide (svalTag x < svalTag y)

/-- Cursor payload: the sort-column value of the last returned row and its id. -/
structure Cursor where
  v : SVal
  id : Nat
deriving DecidableEq, Repr

/-- The query object accepted by `listProducts` (type `ProductListQuery`). -/
structure ProductListQuery where
  limit : Nat
  sortBy : ProductSortBy
  sortOrder : SortOrder
  q : Option String := none
  category : Option String := none
  minPrice : Option Int := none
  maxPrice : Option Int := none
  createdFrom : Option Nat := none
  createdTo : Option Nat := none
  cursor : Option Cursor := none

/-- Value of the ORDER BY column for a row. -/
def sortValOf : ProductSortBy → Product → SVal
  | .createdAt, p => .date p.createdAt
  | .price, p => .num p.price
  | .name, p => .str p.name

/-- The WHERE clause built from the optional filters (the `MATCH ... AGAINST`
full-text condition is the DB-engine predicate `ft`, abstract but fixed). -/
def matchesFilters (ft : String → Product → Bool) (q : ProductListQuery) (p : Product) : Bool :=
  (match q.q with | none => true | some s => ft s p) &&
  (match q.category with | none => true | some c => decide (p.category = c)) &&
  (match q.minPrice with | none => true | some m => decide (m ≤ p.price)) &&
  (match q.maxPrice with | none => true | some m => decide (p.price ≤ m)) &&
  (match q.createdFrom with | none => true | some d => decide (d ≤ p.createdAt)) &&
  (match q.createdTo with | none => true | some d => decide (p.createdAt ≤ d))

/-- Seek predicate `(sortColumn OP cursorValue OR (sortColumn = cursorValue AND id OP cursorId))`
with `OP` being `>` for `asc` and `<` for `desc`. -/
def seekPred (q : ProductListQuery) (c : Cursor) (p : Product) : Bool :=
  let sv := sortValOf q.sortBy p
  match q.sortOrder with
  | .asc => svalLt c.v sv || (decide (sv = c.v) && decide (c.id < p.id))
  | .desc => svalLt sv c.v || (decide (sv = c.v) && decide (p.id < c.id))

/-- Composite sort key `(sortColumn, id)` of a row. -/
def rowKey (q : ProductListQuery) (p : Product) : SVal × Nat :=
  (sortValOf q.sortBy p, p.id)

/-- Non-strict lexicographic comparison of composite keys. -/
def pairLe (x y : SVal × Nat) : Bool :=
  svalLt x.1 y.1 || (decide (x.1 = y.1) && decide (x.2 ≤ y.2))

/-- Strict lexicographic comparison of composite keys. -/
def pairLt (x y : SVal × Nat) : Bool :=
  svalLt x.1 y.1 || (decide (x.1 = y.1) && decide (x.2 < y.2))

/-- The comparator realising `ORDER BY sortColumn dir, id dir`:
`a` comes no later than `b`. -/
def rowLe (q : ProductListQuery) (a b : Product) : Bool :=
  match q.sortOrder with
  | .asc => pairLe (rowKey q a) (rowKey q b)
  | .desc => pairLe (rowKey q b) (rowKey q a)

/-- Strict version of `rowLe`: row `b` is strictly after row `a` in sort order. -/
def rowLt (q : ProductListQuery) (a b : Product) : Bool :=
  match q.sortOrder with
  | .asc => pairLt (rowKey q a) (rowKey q b)
  | .desc => pairLt (rowKey q b) (rowKey q a)

structure ListResult where
  items : List Product
  hasMore : Bool
  nextCursor : Option Cursor
deriving DecidableEq, Repr

/-- `nextCursor` computation: set only when there are more rows and the page is
nonempty; carries the sort-column value and id of the last returned item. -/
def nextCursorOf (q : ProductListQuery) (hasMore : Bool) (last? : Option Product) :
    Option Cursor :=
  match hasMore, last? with
  | true, some last => some ⟨sortValOf q.sortBy last, last.id⟩
  | _, _ => none

/-- Shallow embedding of `listProducts` (productRepository.ts lines 15-105).
WHERE = filter, ORDER BY = a sorted permutation under `rowLe`, LIMIT = take.  The row→item
mapping is the identity here (it only converts representations), and the
serialized cursor value is the sort-column value of the last returned item. -/
def listProducts (ft : String → Product → Bool) (rows : List Product)
    (q : ProductListQuery) : ListResult :=
  let filtered := rows.filter fun p =>
    matchesFilters ft q p &&
    (match q.cursor with | none => true | some c => seekPred q c p)
  let sorted := filtered.insertionSort fun a b => rowLe q a b = true
  let limitPlusOne := min 101 (max 1 (q.limit + 1))
  let fetched := sorted.take limitPlusOne
  let items := fetched.take q.limit
  let hasMore := decide (q.limit < fetched.length)
  { items := items
    hasMore := hasMore
    nextCursor := nextCursorOf q hasMore items.getLast? }

/-- Walk the paginated listing, feeding `nextCursor` back until `hasMore` is
false (or fuel runs out). -/
def collectPages (ft : String → Product → Bool) (rows : List Product)
    (q : ProductListQuery) : Nat → Option Cursor → List Product
  | 0, _ => []
  | fuel + 1, c =>
    let r := listProducts ft rows { q with cursor := c }
    match r.hasMore, r.nextCursor with
    | true, some nc => r.items ++ collectPages ft rows q fuel (some nc)
    | _, _ => r.items

/-- The portion of the sorted matching list selected by an optional cursor. -/
def pageSel (q : ProductListQuery) (s : List Product) : Option Cursor → List Product
  | none => s
  | some cur => s.filter (seekPred q cur)

/-- The whole matching result set in sort order: WHERE + ORDER BY, no LIMIT. -/
def matchingSorted (ft : String → Product → Bool) (rows : List Product)
    (q : ProductListQuery) : List Product :=
  (rows.filter (matchesFilters ft q)).insertionSort fun a b => rowLe q a b = true

/-! ### Cache-with-lock and stampede protection (`src/services/cache.ts`) -/

inductive CacheStatus where
  | BYPASS
  | HIT
  | MISS
  | WAIT
deriving DecidableEq, Repr

/-- A value stored in the key-value store: either an opaque string (lock
tokens) or a cached JSON document of type `T` (serialization abstracted: the
store keeps the value itself instead of its JSON text). -/
inductive StoreVal (T : Type) where
  | raw (s : String)
  | val (v : T)
deriving DecidableEq, Repr

/-- The key-value store: an association list, newest binding first. -/
def Store (T : Type) : Type := List (String × StoreVal T)

def storeGet {T : Type} (st : Store T) (k : String) : Option (StoreVal T) :=
  (st.find? fun kv => kv.1 == k).map Prod.snd

def storeDel {T : Type} (st : Store T) (k : String) : Store T :=
  st.filter fun kv => !(kv.1 == k)

def storeSet {T : Type} (st : Store T) (k : String) (v : StoreVal T) : Store T :=
  (k, v) :: storeDel st k

/-- `GET key` of a cached JSON document (`cacheGetJson`). -/
def cacheGet {T : Type} (st : Store T) (k : String) : Option T :=
  match storeGet st k with
  | some (.val v) => some v
  | _ => none

/-- `SET key value EX ttlSeconds` (`cacheSetJson`).  The TTL is recorded by the
store backend; a single sequential run never advances the clock, so it does not
appear in the store model. -/
def cacheSet {T : Type} (st : Store T) (k : String) (v : T) (_ttlSeconds : Nat) : Store T :=
  storeSet st k (.val v)

/-- `SET lockKey token PX ttlMs NX` (`acquireLock`): set-if-not-exists,
returning the token on success. -/
def acquireLock {T : Type} (st : Store T) (lockKey : String) (token : String)
    (_ttlMs : Nat) : Option String × Store T :=
  match storeGet st lockKey with
  | some _ => (none, st)
  | none => (some token, storeSet st lockKey (.raw token))

/-- Compare-and-delete release script (`releaseLock`): deletes the lock key
only if it still holds this holder's token. -/
def releaseLock {T : Type} (st : Store T) (lockKey : String) (token : String) : Store T :=
  match storeGet st lockKey with
  | some (.raw t) => if t = token then storeDel st lockKey else st
  | _ => st

/-- The poll/backoff loop of `withCache` for a caller that did not acquire the
lock (cache.ts lines 75-83).  `probe e` is the value of `cacheGetJson key` as
observed at elapsed time `e` (the entry may be written concurrently by the
lock holder); each iteration first checks the budget, then sleeps `delay` ms,
re-reads the cache, and doubles the delay up to the 250 ms cap.  Returns the
found value (if any), the elapsed time at exit, and the list of sleeps
performed.  `fuel` only bounds the recursion; the caller supplies enough fuel
that the budget check always fires first. -/
def pollLoop {T : Type} (probe : Nat → Option T) (maxWaitMs : Nat) :
    Nat → Nat → Nat → Option T × Nat × List Nat
  | 0, elapsed, _ => (none, elapsed, [])
  | fuel + 1, elapsed, delay =>
    if elapsed < maxWaitMs then
      let e := elapsed + delay
      match probe e with
      | some v => (some v, e, [delay])
      | none =>
        let r := pollLoop probe maxWaitMs fuel e (min 250 (delay * 2))
        (r.1, r.2.1, delay :: r.2.2)
    else (none, elapsed, [])

structure CacheRunResult (T E : Type) where
  outcome : Except E (T × CacheStatus)
  store : Store T
  sleptMs : Nat

/-- Sequential-run embedding of `withCache` (cache.ts lines 50-86) for one
caller.  `ready` is `redisReady()`; `token` is the generated `randomUUID`;
`compute` either returns a value or throws `E`.  `probe` gives the value of
the cache entry as seen by the poll loop at a given elapsed time; in a run
with no concurrent writer it is `fun _ => cacheGet st key`. -/
def withCache {T E : Type} (ready : Bool) (key : String) (ttlSeconds lockTtlMs : Nat)
    (token : String) (compute : Except E T) (probe : Nat → Option T)
    (st : Store T) : CacheRunResult T E :=
  if !ready then
    { outcome := compute.map fun v => (v, .BYPASS), store := st, sleptMs := 0 }
  else
    match cacheGet st key with
    | some v => { outcome := .ok (v, .HIT), store := st, sleptMs := 0 }
    | none =>
      let lockKey := key ++ ":lock"
      match acquireLock st lockKey token lockTtlMs with
      | (some lockValue, st1) =>
        (match compute with
         | .ok v =>
           let st2 := cacheSet st1 key v ttlSeconds
           { outcome := .ok (v, .MISS)
             store := releaseLock st2 lockKey lockValue
             sleptMs := 0 }
         | .error err =>
           { outcome := .error err
             store := releaseLock st1 lockKey lockValue
             sleptMs := 0 })
      | (none, st1) =>
        let maxWaitMs := min 1000 lockTtlMs
        let p := pollLoop probe maxWaitMs (maxWaitMs + 1) 0 50
        match p.1 with
        | some v => { outcome := .ok (v, .WAIT), store := st1, sleptMs := p.2.1 }
        | none =>
          { outcome := compute.map fun v => (v, .BYPASS), store := st1, sleptMs := p.2.1 }

/-! ### Circuit breaker for External API A (`src/services/externalApiA.ts`) -/

/-- Breaker states; the source strings are `closed`, `open`, `half_open`. -/
inductive CircuitState where
  | closed
  | opened
  | halfOpen
deriving DecidableEq, Repr

/-- The four module-level mutable variables of externalApiA.ts. -/
structure Breaker (D : Type) where
  state : CircuitState
  consecutiveFailures : Nat
  openedAtMs : Option Nat
  lastSuccessData : Option D
deriving DecidableEq, Repr

inductive ASource where
  | live
  | fallback
deriving DecidableEq, Repr

/-- Result payload: live or cached data, or one of the three static
placeholder messages of the source. -/
inductive AData (D : Type) where
  | real (d : D)
  | placeholderDisabled
  | placeholderUnavailable
  | placeholderFailed
deriving DecidableEq, Repr

structure AResult (D : Type) where
  source : ASource
  data : AData D
  reason : Option String
deriving DecidableEq, Repr

def isBreakerOpen {D : Type} (cooldownMs now : Nat) (b : Breaker D) : Bool :=
  match b.state with
  | .opened =>
    match b.openedAtMs with
    | none => true
    | some t => decide (now - t < cooldownMs)
  | _ => false

def maybeToHalfOpen {D : Type} (cooldownMs now : Nat) (b : Breaker D) : Breaker D :=
  match b.state with
  | .opened =>
    if isBreakerOpen cooldownMs now b then b else { b with state := .halfOpen }
  | _ => b

def openBreaker {D : Type} (now : Nat) (b : Breaker D) : Breaker D :=
  { b with state := .opened, openedAtMs := some now }

def recordSuccess {D : Type} (d : D) (_b : Breaker D) : Breaker D :=
  { state := .closed
    consecutiveFailures := 0
    openedAtMs := none
    lastSuccessData := some d }

def recordFailure {D : Type} (threshold now : Nat) (b : Breaker D) : Breaker D :=
  let b1 := { b with consecutiveFailures := b.consecutiveFailures + 1 }
  if threshold ≤ b1.consecutiveFailures then openBreaker now b1 else b1

/-- One call of `fetchExternalApiA` (externalApiA.ts lines 123-178).  `attempt`
is the outcome of the retry-wrapped HTTP request, kept abstract; the returned
Bool records whether the dependency was invoked on this call. -/
def fetchExternalApiA {D : Type} (enabled : Bool) (threshold cooldownMs now : Nat)
    (attempt : Except String D) (b : Breaker D) : AResult D × Breaker D × Bool :=
  if !enabled then
    ({ source := .fallback, data := .placeholderDisabled, reason := some "disabled" },
      b, false)
  else
    let b1 := maybeToHalfOpen cooldownMs now b
    if isBreakerOpen cooldownMs now b1 then
      ({ source := .fallback
         data := match b1.lastSuccessData with
           | some d => .real d
           | none => .placeholderUnavailable
         reason := some "circuit_open" }, b1, false)
    else
      match attempt with
      | .ok d =>
        ({ source := .live, data := .real d, reason := none }, recordSuccess d b1, true)
      | .error msg =>
        let b2 := recordFailure threshold now b1
        ({ source := .fallback
           data := match b2.lastSuccessData with
             | some d => .real d
             | none => .placeholderFailed
           reason := some msg }, b2, true)

/-- Reachability invariant of the breaker: a non-closed breaker has seen at
least `threshold` consecutive failures, and an open breaker has an opening
timestamp. -/
def BreakerWF {D : Type} (threshold : Nat) (b : Breaker D) : Prop :=
  (b.state ≠ .closed → threshold ≤ b.consecutiveFailures) ∧
  (b.state = .opened → b.openedAtMs ≠ none)

/-! ### Versioned cache keys (`src/services/productsCache.ts`) -/

/-- Decimal digits of `n`, least significant first; the first argument is
fuel (structural recursion so that evaluation reduces in the kernel). -/
def digitsRevAux : Nat → Nat → List Nat
  | 0, _ => []
  | fuel + 1, n => if n = 0 then [] else n % 10 :: digitsRevAux fuel (n / 10)

def digitsRev (n : Nat) : List Nat :=
  digitsRevAux n n

/-- Value of a least-significant-first digit list. -/
def ofDigitsRev : List Nat → Nat
  | [] => 0
  | d :: ds => d + 10 * ofDigitsRev ds

def digitChar : Nat → Char
  | 0 => '0'
  | 1 => '1'
  | 2 => '2'
  | 3 => '3'
  | 4 => '4'
  | 5 => '5'
  | 6 => '6'
  | 7 => '7'
  | 8 => '8'
  | 9 => '9'
  | _ => '?'

/-- Decimal rendering of the version counter (the `v${v}` template fragment).
Defined explicitly so its injectivity can be proved; agrees with the usual
decimal numeral for every positive number (the counter is always ≥ 1). -/
def natDec (n : Nat) : String :=
  String.mk (((digitsRev n).reverse).map digitChar)

/-- State of the versioned products cache: the `products:cache_version`
counter (`none` while the key is absent; Redis stores it as a decimal string
and `INCR` increments it atomically, modelled as the number itself), plus all
other cache entries, which version operations never touch. -/
structure PCState (T : Type) where
  version : Option Nat
  entries : List (String × T)

/-- `getVersion`: `SET products:cache_version "1" NX` followed by `GET`. -/
def getVersion {T : Type} (st : PCState T) : Nat × PCState T :=
  match st.version with
  | none => (1, { st with version := some 1 })
  | some v => (v, st)

/-- The SHA-1 hex digest of the stable serialization, abstracted as the
serialized text itself: every claim in scope depends only on the digest being
a function of its input. -/
def hashKey (s : String) : String := s

/-- The `products:list:v{version}:{hash}` key template. -/
def mkListKey (v : Nat) (h : String) : String :=
  "products:list:v" ++ natDec v ++ ":" ++ h

/-- `getProductsListCacheKey`: read (lazily initialising) the version, then
render the key for the stably-serialized parameters. -/
def getProductsListCacheKey {T : Type} (st : PCState T) (serializedParams : String) :
    String × PCState T :=
  let r := getVersion st
  (mkListKey r.1 (hashKey serializedParams), r.2)

/-- `bumpProductsCacheVersion`: `INCR products:cache_version` (a missing key
counts as 0).  Touches nothing but the version counter. -/
def bumpProductsCacheVersion {T : Type} (st : PCState T) : PCState T :=
  { st with version := some (st.version.getD 0 + 1) }

/-- The stored version as a number, 0 when absent. -/
def versionOf {T : Type} (st : PCState T) : Nat :=
  st.version.getD 0

/-- Invariant: a present version counter is at least 1. -/
def PCWF {T : Type} (st : PCState T) : Prop :=
  ∀ v, st.version = some v → 1 ≤ v

/-! ### Stable stringify (`src/utils/stableStringify.ts`) -/

/-- JSON-like values handled by `stableStringify`: primitives, `Date` objects
(carrying their millisecond timestamp), arrays, and objects as ordered field
lists. -/
inductive JVal where
  | jnull
  | jbool (b : Bool)
  | jnum (n : Int)
  | jstr (s : String)
  | jdate (t : Nat)
  | jarr (xs : List JVal)
  | jobj (fields : List (String × JVal))

/-- `Date.toISOString()` abstracted as an injective rendering of the
millisecond timestamp; no claim in scope depends on the textual format. -/
def isoOfMs (t : Nat) : String := natDec t

/-- Key comparison used by `Object.keys(...).sort()`. -/
def keyLeJ (a b : String × JVal) : Bool := decide (a.1 ≤ b.1)

/-- `sortRec` (stableStringify.ts lines 5-17): recursively sort all object
keys; arrays keep their order; `Date`s canonicalize to their ISO string.
The source iterates over the sorted keys and recurses on each value; since
the comparator reads only keys, this equals recursing on the values first and
then sorting the fields by key, which is the form used here. -/
def sortRec : JVal → JVal
  | .jnull => .jnull
  | .jbool b => .jbool b
  | .jnum n => .jnum n
  | .jstr s => .jstr s
  | .jdate t => .jstr (isoOfMs t)
  | .jarr xs => .jarr (xs.attach.map fun x => sortRec x.1)
  | .jobj fs => .jobj
      ((fs.attach.map fun kv => (kv.1.1, sortRec kv.1.2)).insertionSort
        fun a b => keyLeJ a b = true)
termination_by v => sizeOf v
decreasing_by
  · have h := List.sizeOf_lt_of_mem x.2
    simp only [JVal.jarr.sizeOf_spec]
    omega
  · have h := List.sizeOf_lt_of_mem kv.2
    obtain ⟨⟨a, b⟩, hmem⟩ := kv
    simp only [Prod.mk.sizeOf_spec] at h
    simp only [JVal.jobj.sizeOf_spec]
    omega

/-- JSON string escaping (quotes and backslashes). -/
def escChar (c : Char) : String :=
  if c = '"' then "\\\"" else if c = '\\' then "\\\\" else String.singleton c

def jquote (s : String) : String :=
  "\"" ++ String.join (s.data.map escChar) ++ "\""

/-- `JSON.stringify` on the sorted value. -/
def stringify : JVal → String
  | .jnull => "null"
  | .jbool true => "true"
  | .jbool false => "false"
  | .jnum n => toString n
  | .jstr s => jquote s
  | .jdate t => jquote (isoOfMs t)
  | .jarr xs => "[" ++ String.intercalate "," (xs.attach.map fun x => stringify x.1) ++ "]"
  | .jobj fs => "\x7b" ++ String.intercalate ","
      (fs.attach.map fun kv => jquote kv.1.1 ++ ":" ++ stringify kv.1.2) ++ "\x7d"
termination_by v => sizeOf v
decreasing_by
  · have h := List.sizeOf_lt_of_mem x.2
    simp only [JVal.jarr.sizeOf_spec]
    omega
  · have h := List.sizeOf_lt_of_mem kv.2
    obtain ⟨⟨a, b⟩, hmem⟩ := kv
    simp only [Prod.mk.sizeOf_spec] at h
    simp only [JVal.jobj.sizeOf_spec]
    omega

/-- `stableStringify`: serialize the recursively key-sorted value. -/
def stableStringify (v : JVal) : String := stringify (sortRec v)

/-- One key-reordering step somewhere inside a value: an object's field list
is replaced by a permutation of it (JS objects cannot hold duplicate keys, so
the reordered object has pairwise distinct keys), or a step happens inside one
array element or one field value.  Its reflexive-transitive closure `Reorder`
is "logically identical: same keys and values, possibly different insertion
order, arrays keeping their order". -/
inductive ReorderStep : JVal → JVal → Prop where
  | obj_perm (fs gs : List (String × JVal)) :
      (fs.map Prod.fst).Nodup → fs.Perm gs → ReorderStep (.jobj fs) (.jobj gs)
  | arr_cong (l r : List JVal) (x y : JVal) :
      ReorderStep x y → ReorderStep (.jarr (l ++ x :: r)) (.jarr (l ++ y :: r))
  | obj_cong (l r : List (String × JVal)) (k : String) (v w : JVal) :
      ReorderStep v w →
      ReorderStep (.jobj (l ++ (k, v) :: r)) (.jobj (l ++ (k, w) :: r))

def Reorder : JVal → JVal → Prop := Relation.ReflTransGen ReorderStep

/-! ### Products query controller (`src/controllers/productsController.ts`) -/

/-- A decoded-JSON field of a cursor payload (`unknown` in the source). -/
inductive CVal where
  | cnum (n : Int)
  | cstr (s : String)
  | cnull
  | cbool (b : Bool)
  | cother
deriving DecidableEq, Repr

/-- The four fields of a decoded cursor payload. -/
structure DecodedCursor where
  sortBy : CVal
  sortOrder : CVal
  v : CVal
  id : CVal
deriving DecidableEq, Repr

def sortByName : ProductSortBy → String
  | .createdAt => "createdAt"
  | .price => "price"
  | .name => "name"

def sortOrderName : SortOrder → String
  | .asc => "asc"
  | .desc => "desc"

/-- JS strict equality of a decoded JSON value against a known string. -/
def cvalIsStr (c : CVal) (s : String) : Bool :=
  match c with
  | .cstr t => decide (t = s)
  | _ => false

/-- The query object produced by the zod schema (`querySchema.parse`). -/
structure ParsedQuery where
  limit : Nat
  sortBy : ProductSortBy
  sortOrder : SortOrder
  q : Option String := none
  category : Option String := none
  minPrice : Option Rat := none
  maxPrice : Option Rat := none
  createdFrom : Option String := none
  createdTo : Option String := none
  cursor : Option String := none

/-- The `AppError(message, statusCode)` values thrown by the controller. -/
structure AppErrorM where
  message : String
  statusCode : Nat
deriving DecidableEq, Repr

/-- The fully validated request passed on to the cache/repository pipeline. -/
structure ValidatedQuery where
  limit : Nat
  sortBy : ProductSortBy
  sortOrder : SortOrder
  q : Option String
  category : Option String
  minPrice : Option Rat
  maxPrice : Option Rat
  createdFrom : Option Nat
  createdTo : Option Nat
  cursor : Option Cursor

/-- `minPrice > maxPrice` range check (controller lines 54-59). -/
def checkRange (p : ParsedQuery) : Except AppErrorM Unit :=
  match p.minPrice, p.maxPrice with
  | some mp, some mx =>
    if mx < mp then
      .error ⟨"minPrice cannot be greater than maxPrice", 400⟩
    else .ok ()
  | _, _ => .ok ()

/-- `new Date(s)` + NaN check for createdFrom/createdTo (lines 62-66);
`parseDate` models the JS date parser (`none` = NaN). -/
def parseDateField (parseDate : String → Option Nat) (nm : String)
    (v : Option String) : Except AppErrorM (Option Nat) :=
  match v with
  | none => .ok none
  | some s =>
    match parseDate s with
    | some d => .ok (some d)
    | none => .error ⟨"Invalid " ++ nm, 400⟩

/-- Cursor decoding and validation (controller lines 73-103).  `dec` models
`decodeCursor` (base64url + `JSON.parse`; `none` = either step threw).
Decoded numeric ids map into the repository cursor's id. -/
def validateCursor (parseDate : String → Option Nat)
    (dec : String → Option DecodedCursor) (sb : ProductSortBy) (so : SortOrder) :
    Option String → Except AppErrorM (Option Cursor)
  | none => .ok none
  | some raw =>
    match dec raw with
    | none => .error ⟨"Invalid cursor", 400⟩
    | some d =>
      if !(cvalIsStr d.sortBy (sortByName sb))
          || !(cvalIsStr d.sortOrder (sortOrderName so)) then
        .error ⟨"Cursor does not match sortBy/sortOrder", 400⟩
      else
        match d.id with
        | .cnum nid =>
          match sb with
          | .createdAt =>
            (match d.v with
             | .cstr s =>
               (match parseDate s with
                | some t => .ok (some ⟨.date t, nid.toNat⟩)
                | none => .error ⟨"Invalid cursor value", 400⟩)
             | _ => .error ⟨"Invalid cursor value", 400⟩)
          | .price =>
            (match d.v with
             | .cnum n => .ok (some ⟨.num n, nid.toNat⟩)
             | .cstr s => .ok (some ⟨.str s, nid.toNat⟩)
             | _ => .error ⟨"Invalid cursor value", 400⟩)
          | .name =>
            (match d.v with
             | .cstr s => .ok (some ⟨.str s, nid.toNat⟩)
             | _ => .error ⟨"Invalid cursor value", 400⟩)
        | _ => .error ⟨"Invalid cursor id", 400⟩

/-- The synchronous validation phase of `getProductsController`
(lines 54-103), run before any cache or storage access. -/
def validateProductsQuery (parseDate : String → Option Nat)
    (dec : String → Option DecodedCursor) (p : ParsedQuery) :
    Except AppErrorM ValidatedQuery :=
  match checkRange p with
  | .error e => .error e
  | .ok _ =>
    match parseDateField parseDate "createdFrom" p.createdFrom with
    | .error e => .error e
    | .ok cf =>
      match parseDateField parseDate "createdTo" p.createdTo with
      | .error e => .error e
      | .ok ct =>
        match validateCursor parseDate dec p.sortBy p.sortOrder p.cursor with
        | .error e => .error e
        | .ok cur =>
          .ok { limit := p.limit, sortBy := p.sortBy, sortOrder := p.sortOrder
                q := p.q, category := p.category
                minPrice := p.minPrice, maxPrice := p.maxPrice
                createdFrom := cf, createdTo := ct, cursor := cur }

/-- The raw HTTP query (all values are strings or absent). -/
structure RawQuery where
  limit : Option String := none
  sortBy : Option String := none
  sortOrder : Option String := none
  q : Option String := none
  category : Option String := none
  minPrice : Option String := none
  maxPrice : Option String := none
  createdFrom : Option String := none
  createdTo : Option String := none
  cursor : Option String := none

/-- zod `z.coerce.number().int().positive().max(100).catch(20)`.  `jsNumber`
models the JS `Number()` coercion (`none` = NaN); an absent field coerces to
NaN and is likewise caught, yielding the default 20. -/
def parseLimit (jsNumber : String → Option Rat) (v : Option String) : Nat :=
  match v.bind jsNumber with
  | some x => if x.den = 1 ∧ 0 < x.num ∧ x.num ≤ 100 then x.num.toNat else 20
  | none => 20

/-- zod `z.enum(['createdAt','price','name']).catch('createdAt')`. -/
def parseSortBy (v : Option String) : ProductSortBy :=
  match v with
  | some "createdAt" => .createdAt
  | some "price" => .price
  | some "name" => .name
  | _ => .createdAt

/-- zod `z.enum(['asc','desc']).catch('desc')`. -/
def parseSortOrder (v : Option String) : SortOrder :=
  match v with
  | some "asc" => .asc
  | some "desc" => .desc
  | _ => .desc

/-- zod `z.string().min(1).optional()`; a present empty string has no catch,
so the whole parse throws. -/
def parseOptMin1 (v : Option String) : Except Unit (Option String) :=
  match v with
  | none => .ok none
  | some s => if 1 ≤ s.length then .ok (some s) else .error ()

/-- zod `z.coerce.number().nonnegative().optional()`; no catch either. -/
def parseOptNonneg (jsNumber : String → Option Rat) (v : Option String) :
    Except Unit (Option Rat) :=
  match v with
  | none => .ok none
  | some s =>
    match jsNumber s with
    | some x => if 0 ≤ x then .ok (some x) else .error ()
    | none => .error ()

/-- The zod `querySchema.parse` (controller lines 13-26); `Except.error ()` is
a thrown `ZodError`. -/
def parseQuerySchema (jsNumber : String → Option Rat) (raw : RawQuery) :
    Except Unit ParsedQuery :=
  match parseOptMin1 raw.q with
  | .error e => .error e
  | .ok qv =>
    match parseOptMin1 raw.category with
    | .error e => .error e
    | .ok cat =>
      match parseOptNonneg jsNumber raw.minPrice with
      | .error e => .error e
      | .ok mp =>
        match parseOptNonneg jsNumber raw.maxPrice with
        | .error e => .error e
        | .ok mx =>
          match parseOptMin1 raw.createdFrom with
          | .error e => .error e
          | .ok cf =>
            match parseOptMin1 raw.createdTo with
            | .error e => .error e
            | .ok ct =>
              match parseOptMin1 raw.cursor with
              | .error e => .error e
              | .ok cur =>
                .ok { limit := parseLimit jsNumber raw.limit
                      sortBy := parseSortBy raw.sortBy
                      sortOrder := parseSortOrder raw.sortOrder
                      q := qv, category := cat
                      minPrice := mp, maxPrice := mx
                      createdFrom := cf, createdTo := ct, cursor := cur }

inductive CtrlError where
  | app (e : AppErrorM)
  | zod
deriving DecidableEq, Repr

/-- `getProductsController` up to the point where I/O starts: schema parse,
synchronous validation, then hand-off to `serve` (the cache/dedupe/repository
pipeline, abstracted — it is not invoked on any validation error). -/
def getProductsController {R : Type} (mysqlEnabled : Bool)
    (jsNumber : String → Option Rat) (parseDate : String → Option Nat)
    (dec : String → Option DecodedCursor) (serve : ValidatedQuery → R)
    (raw : RawQuery) : Except CtrlError R :=
  if !mysqlEnabled then
    .error (.app ⟨"MySQL is disabled (MYSQL_ENABLED=false).", 503⟩)
  else
    match parseQuerySchema jsNumber raw with
    | .error _ => .error .zod
    | .ok p =>
      match validateProductsQuery parseDate dec p with
      | .error e => .error (.app e)
      | .ok v => .ok (serve v)

/-! ### Theorems: generic toolkit -/

theorem strictLt_asymm {α : Type} (le : α → α → Bool) {a b : α}
    (h : strictLt le a b) : ¬ strictLt le b a :=
  fun h2 => h.2 h2.1

theorem eq_of_perm_of_strictSorted {α : Type} (le : α → α → Bool) {l₁ l₂ : List α}
    (hp : l₁.Perm l₂) (h₁ : l₁.Pairwise (strictLt le)) (h₂ : l₂.Pairwise (strictLt le)) :
    l₁ = l₂ := by
  haveI : IsAntisymm α (strictLt le) :=
    ⟨fun a b h h2 => absurd h2 (strictLt_asymm le h)⟩
  exact List.eq_of_perm_of_sorted hp h₁ h₂

theorem pairwise_strictLt_of_sorted {α : Type} (le : α → α → Bool) {l : List α}
    (hs : l.Pairwise fun a b => le a b = true)
    (hn : l.Pairwise fun a b => ¬(le a b = true ∧ le b a = true)) :
    l.Pairwise (strictLt le) :=
  (hs.and hn).imp (fun h => ⟨h.1, fun hba => h.2 ⟨h.1, hba⟩⟩)

theorem noTies_symm {α : Type} (le : α → α → Bool) {x y : α}
    (h : ¬(le x y = true ∧ le y x = true)) : ¬(le y x = true ∧ le x y = true) :=
  fun hc => h ⟨hc.2, hc.1⟩

/-- The sort used throughout produces a list sorted by the comparator. -/
theorem insertionSort_sorted {α : Type} (le : α → α → Bool)
    (htrans : ∀ a b c, le a b = true → le b c = true → le a c = true)
    (htotal : ∀ a b, (le a b || le b a) = true) (l : List α) :
    (l.insertionSort fun a b => le a b = true).Pairwise fun a b => le a b = true := by
  haveI : IsTrans α (fun a b => le a b = true) := ⟨htrans⟩
  haveI : IsTotal α (fun a b => le a b = true) :=
    ⟨fun a b => by simpa [Bool.or_eq_true] using htotal a b⟩
  exact List.sorted_insertionSort _ l

/-- Sorting two permuted lists with no ties among their elements gives the same list. -/
theorem insertionSort_congr_of_perm {α : Type} (le : α → α → Bool)
    (htrans : ∀ a b c, le a b = true → le b c = true → le a c = true)
    (htotal : ∀ a b, (le a b || le b a) = true)
    {l₁ l₂ : List α} (hp : l₁.Perm l₂)
    (hn : l₁.Pairwise fun a b => ¬(le a b = true ∧ le b a = true)) :
    (l₁.insertionSort fun a b => le a b = true)
      = (l₂.insertionSort fun a b => le a b = true) := by
  have p1 : (l₁.insertionSort fun a b => le a b = true).Perm l₁ :=
    List.perm_insertionSort _ l₁
  have p2 : (l₂.insertionSort fun a b => le a b = true).Perm l₂ :=
    List.perm_insertionSort _ l₂
  have s1 := insertionSort_sorted le htrans htotal l₁
  have s2 := insertionSort_sorted le htrans htotal l₂
  have hn1 : (l₁.insertionSort fun a b => le a b = true).Pairwise
      fun a b => ¬(le a b = true ∧ le b a = true) :=
    (p1.pairwise_iff (noTies_symm le)).mpr hn
  have hn2 : (l₂.insertionSort fun a b => le a b = true).Pairwise
      fun a b => ¬(le a b = true ∧ le b a = true) :=
    (p2.pairwise_iff (noTies_symm le)).mpr ((hp.pairwise_iff (noTies_symm le)).mp hn)
  exact eq_of_perm_of_strictSorted le (p1.trans (hp.trans p2.symm))
    (pairwise_strictLt_of_sorted le s1 hn1) (pairwise_strictLt_of_sorted le s2 hn2)

/-- Filtering commutes with sorting (WHERE commutes with ORDER BY), absent ties. -/
theorem insertionSort_filter_comm {α : Type} (le : α → α → Bool)
    (htrans : ∀ a b c, le a b = true → le b c = true → le a c = true)
    (htotal : ∀ a b, (le a b || le b a) = true)
    (p : α → Bool) {l : List α}
    (hn : l.Pairwise fun a b => ¬(le a b = true ∧ le b a = true)) :
    ((l.filter p).insertionSort fun a b => le a b = true)
      = (l.insertionSort fun a b => le a b = true).filter p := by
  have p0 : (l.insertionSort fun a b => le a b = true).Perm l :=
    List.perm_insertionSort _ l
  have p1 : ((l.filter p).insertionSort fun a b => le a b = true).Perm (l.filter p) :=
    List.perm_insertionSort _ _
  have p2 : ((l.insertionSort fun a b => le a b = true).filter p).Perm (l.filter p) :=
    p0.filter p
  have hnf : (l.filter p).Pairwise fun a b => ¬(le a b = true ∧ le b a = true) :=
    hn.filter p
  have hn1 : ((l.filter p).insertionSort fun a b => le a b = true).Pairwise
      fun a b => ¬(le a b = true ∧ le b a = true) :=
    (p1.pairwise_iff (noTies_symm le)).mpr hnf
  have hn0 : (l.insertionSort fun a b => le a b = true).Pairwise
      fun a b => ¬(le a b = true ∧ le b a = true) :=
    (p0.pairwise_iff (noTies_symm le)).mpr hn
  have s1 := insertionSort_sorted le htrans htotal (l.filter p)
  have s2 : ((l.insertionSort fun a b => le a b = true).filter p).Pairwise
      fun a b => le a b = true :=
    (insertionSort_sorted le htrans htotal l).filter p
  exact eq_of_perm_of_strictSorted le (p1.trans p2.symm)
    (pairwise_strictLt_of_sorted le s1 hn1)
    (pairwise_strictLt_of_sorted le s2 (hn0.filter p))

/-- On a strictly sorted list, the seek predicate "strictly after element `j`"
selects exactly the suffix starting at `j+1`. -/
theorem filter_strict_eq_drop {α : Type} (lt : α → α → Bool)
    (hasym : ∀ a b, lt a b = true → lt b a = false) :
    ∀ (s : List α), (s.Pairwise fun a b => lt a b = true) →
      ∀ (j : Nat) (hj : j < s.length),
        (s.filter fun b => lt (s.get ⟨j, hj⟩) b) = s.drop (j + 1) := by
  have hirr : ∀ a, lt a a = false := by
    intro a
    cases h : lt a a with
    | false => rfl
    | true => exact h.symm.trans (hasym a a h)
  intro s
  induction s with
  | nil => intro _ j hj; simp at hj
  | cons a t ih =>
    intro hp j hj
    have hhead : ∀ b ∈ t, lt a b = true := (List.pairwise_cons.mp hp).1
    have htail : t.Pairwise fun x y => lt x y = true := (List.pairwise_cons.mp hp).2
    cases j with
    | zero =>
      simp only [List.get, List.drop_succ_cons, List.drop_zero, List.filter_cons]
      rw [hirr a]
      simp only [Bool.false_eq_true, if_false]
      exact List.filter_eq_self.mpr hhead
    | succ j' =>
      have hj' : j' < t.length := by simpa using hj
      simp only [List.get, List.drop_succ_cons, List.filter_cons]
      have h1 : lt a (t.get ⟨j', hj'⟩) = true := hhead _ (t.get_mem _ _)
      have h2 : lt (t.get ⟨j', hj'⟩) a = false := hasym _ _ h1
      rw [h2]
      simp only [Bool.false_eq_true, if_false]
      exact ih htail j' hj'

/-! ### Theorems: the composite-key order -/

theorem svalLt_asymm : ∀ a b : SVal, svalLt a b = true → svalLt b a = false := by
  intro a b h
  cases a <;> cases b <;> simp_all [svalLt, svalTag] <;>
    first
    | omega
    | exact le_of_lt h

theorem svalLt_trans :
    ∀ a b c : SVal, svalLt a b = true → svalLt b c = true → svalLt a c = true := by
  intro a b c h1 h2
  cases a <;> cases b <;> cases c <;> simp_all [svalLt, svalTag] <;>
    first
    | omega
    | exact lt_trans h1 h2

theorem svalLt_conn :
    ∀ a b : SVal, svalLt a b = false → svalLt b a = false → a = b := by
  intro a b h1 h2
  cases a <;> cases b <;> simp_all [svalLt, svalTag] <;>
    first
    | omega
    | exact String.ext (le_antisymm h2 h1)

theorem svalLt_irrefl (a : SVal) : svalLt a a = false := by
  cases h : svalLt a a with
  | false => rfl
  | true => exact h.symm.trans (svalLt_asymm a a h)

theorem pairLe_trans :
    ∀ x y z : SVal × Nat, pairLe x y = true → pairLe y z = true → pairLe x z = true := by
  intro x y z h1 h2
  simp only [pairLe, Bool.or_eq_true, Bool.and_eq_true, decide_eq_true_eq] at h1 h2 ⊢
  rcases h1 with h1 | ⟨he1, hle1⟩ <;> rcases h2 with h2 | ⟨he2, hle2⟩
  · exact Or.inl (svalLt_trans _ _ _ h1 h2)
  · exact Or.inl (he2 ▸ h1)
  · exact Or.inl (he1 ▸ h2)
  · exact Or.inr ⟨he1.trans he2, le_trans hle1 hle2⟩

theorem pairLe_total : ∀ x y : SVal × Nat, (pairLe x y || pairLe y x) = true := by
  intro x y
  simp only [pairLe, Bool.or_eq_true, Bool.and_eq_true, decide_eq_true_eq]
  cases h1 : svalLt x.1 y.1 with
  | true => exact Or.inl (Or.inl rfl)
  | false =>
    cases h2 : svalLt y.1 x.1 with
    | true => exact Or.inr (Or.inl rfl)
    | false =>
      have he := svalLt_conn _ _ h1 h2
      rcases le_total x.2 y.2 with h | h
      · exact Or.inl (Or.inr ⟨he, h⟩)
      · exact Or.inr (Or.inr ⟨he.symm, h⟩)

theorem pairLe_antisymm :
    ∀ x y : SVal × Nat, pairLe x y = true → pairLe y x = true → x = y := by
  intro x y h1 h2
  simp only [pairLe, Bool.or_eq_true, Bool.and_eq_true, decide_eq_true_eq] at h1 h2
  rcases h1 with h1 | ⟨he1, hle1⟩ <;> rcases h2 with h2 | ⟨he2, hle2⟩
  · exact absurd h1 (by rw [svalLt_asymm _ _ h2]; exact Bool.false_ne_true)
  · rw [he2] at h1; exact absurd h1 (by rw [svalLt_irrefl]; exact Bool.false_ne_true)
  · rw [he1] at h2; exact absurd h2 (by rw [svalLt_irrefl]; exact Bool.false_ne_true)
  · exact Prod.ext he1 (le_antisymm hle1 hle2)

theorem pairLt_asymm :
    ∀ x y : SVal × Nat, pairLt x y = true → pairLt y x = false := by
  intro x y h1
  cases h2 : pairLt y x with
  | false => rfl
  | true =>
    exfalso
    simp only [pairLt, Bool.or_eq_true, Bool.and_eq_true, decide_eq_true_eq] at h1 h2
    rcases h1 with h1 | ⟨he1, hlt1⟩ <;> rcases h2 with h2 | ⟨he2, hlt2⟩
    · exact absurd h1 (by rw [svalLt_asymm _ _ h2]; exact Bool.false_ne_true)
    · rw [he2] at h1; exact absurd h1 (by rw [svalLt_irrefl]; exact Bool.false_ne_true)
    · rw [he1] at h2; exact absurd h2 (by rw [svalLt_irrefl]; exact Bool.false_ne_true)
    · omega

theorem pairLt_of_pairLe_ne :
    ∀ x y : SVal × Nat, pairLe x y = true → x ≠ y → pairLt x y = true := by
  intro x y h hne
  simp only [pairLe, Bool.or_eq_true, Bool.and_eq_true, decide_eq_true_eq] at h
  simp only [pairLt, Bool.or_eq_true, Bool.and_eq_true, decide_eq_true_eq]
  rcases h with h | ⟨he, hle⟩
  · exact Or.inl h
  · refine Or.inr ⟨he, lt_of_le_of_ne hle fun hsnd => hne (Prod.ext he hsnd)⟩

theorem rowLe_trans (q : ProductListQuery) :
    ∀ a b c, rowLe q a b = true → rowLe q b c = true → rowLe q a c = true := by
  intro a b c
  cases ho : q.sortOrder <;> simp only [rowLe, ho] <;> intro h1 h2
  · exact pairLe_trans _ _ _ h1 h2
  · exact pairLe_trans _ _ _ h2 h1

theorem rowLe_total (q : ProductListQuery) :
    ∀ a b, (rowLe q a b || rowLe q b a) = true := by
  intro a b
  cases ho : q.sortOrder <;> simp only [rowLe, ho]
  · exact pairLe_total _ _
  · exact pairLe_total _ _

theorem rowKey_eq_of_ties (q : ProductListQuery) {a b : Product}
    (h1 : rowLe q a b = true) (h2 : rowLe q b a = true) : rowKey q a = rowKey q b := by
  cases ho : q.sortOrder <;> simp only [rowLe, ho] at h1 h2
  · exact pairLe_antisymm _ _ h1 h2
  · exact (pairLe_antisymm _ _ h2 h1)

theorem rowLt_of_rowLe_keyNe (q : ProductListQuery) {a b : Product}
    (h : rowLe q a b = true) (hne : rowKey q a ≠ rowKey q b) : rowLt q a b = true := by
  cases ho : q.sortOrder <;> simp only [rowLe, ho] at h <;> simp only [rowLt, ho]
  · exact pairLt_of_pairLe_ne _ _ h hne
  · exact pairLt_of_pairLe_ne _ _ h (Ne.symm hne)

theorem rowLt_asymm (q : ProductListQuery) :
    ∀ a b, rowLt q a b = true → rowLt q b a = false := by
  intro a b
  cases ho : q.sortOrder <;> simp only [rowLt, ho] <;> exact pairLt_asymm _ _

/-- The seek predicate of the cursor minted from row `a` is exactly
"strictly after `a` in sort order". -/
theorem seekPred_mint (q : ProductListQuery) (a b : Product) :
    seekPred q ⟨sortValOf q.sortBy a, a.id⟩ b = rowLt q a b := by
  cases ho : q.sortOrder <;> simp only [seekPred, rowLt, rowKey, pairLt, ho]
  · rw [show decide (sortValOf q.sortBy b = sortValOf q.sortBy a)
        = decide (sortValOf q.sortBy a = sortValOf q.sortBy b) from
        decide_eq_decide.mpr eq_comm]

/-! ### Theorems: pagination (claims C1 and C2) -/

theorem matchesFilters_setCursor (ft : String → Product → Bool) (q : ProductListQuery)
    (c : Option Cursor) (p : Product) :
    matchesFilters ft { q with cursor := c } p = matchesFilters ft q p := rfl

theorem rowLe_setCursor (q : ProductListQuery) (c : Option Cursor) :
    rowLe { q with cursor := c } = rowLe q := rfl

theorem seekPred_setCursor (q : ProductListQuery) (c : Option Cursor) (cur : Cursor) :
    seekPred { q with cursor := c } cur = seekPred q cur := rfl

theorem nextCursorOf_setCursor (q : ProductListQuery) (c : Option Cursor)
    (h : Bool) (l : Option Product) :
    nextCursorOf { q with cursor := c } h l = nextCursorOf q h l := by
  cases h <;> cases l <;> rfl

/-- Pairwise distinct ids of the matching rows, given distinct ids in the table. -/
theorem pairwise_keyNe_filter (ft : String → Product → Bool) (rows : List Product)
    (q : ProductListQuery) (hid : (rows.map Product.id).Nodup) :
    (rows.filter (matchesFilters ft q)).Pairwise
      fun a b => rowKey q a ≠ rowKey q b := by
  have hsub : ((rows.filter (matchesFilters ft q)).map Product.id).Sublist
      (rows.map Product.id) := (List.filter_sublist rows).map Product.id
  have hnd : ((rows.filter (matchesFilters ft q)).map Product.id).Nodup :=
    hsub.nodup hid
  have hpw : (rows.filter (matchesFilters ft q)).Pairwise
      fun a b => a.id ≠ b.id := List.pairwise_map.mp hnd
  exact hpw.imp fun h hk => h (congrArg Prod.snd hk)

theorem noTies_of_keyNe (q : ProductListQuery) {l : List Product}
    (h : l.Pairwise fun a b => rowKey q a ≠ rowKey q b) :
    l.Pairwise fun a b => ¬(rowLe q a b = true ∧ rowLe q b a = true) :=
  h.imp fun hk hc => hk (rowKey_eq_of_ties q hc.1 hc.2)

/-- One `listProducts` call, characterised against the full sorted result set:
the page is `take limit` of the cursor-selected suffix. -/
theorem listProducts_run (ft : String → Product → Bool) (rows : List Product)
    (q : ProductListQuery) (c : Option Cursor)
    (hid : (rows.map Product.id).Nodup) (hl1 : 1 ≤ q.limit) (hl2 : q.limit ≤ 100) :
    listProducts ft rows { q with cursor := c } =
      { items := (pageSel q (matchingSorted ft rows q) c).take q.limit
        hasMore := decide (q.limit < (pageSel q (matchingSorted ft rows q) c).length)
        nextCursor := nextCursorOf q
          (decide (q.limit < (pageSel q (matchingSorted ft rows q) c).length))
          (((pageSel q (matchingSorted ft rows q) c).take q.limit).getLast?) } := by
  have hkeyne := pairwise_keyNe_filter ft rows q hid
  have hnt := noTies_of_keyNe q hkeyne
  have hsorted : listProducts ft rows { q with cursor := c } =
      { items := ((pageSel q (matchingSorted ft rows q) c).take
          (min 101 (max 1 (q.limit + 1)))).take q.limit
        hasMore := decide (q.limit <
          ((pageSel q (matchingSorted ft rows q) c).take
            (min 101 (max 1 (q.limit + 1)))).length)
        nextCursor := nextCursorOf q
          (decide (q.limit <
            ((pageSel q (matchingSorted ft rows q) c).take
              (min 101 (max 1 (q.limit + 1)))).length))
          ((((pageSel q (matchingSorted ft rows q) c).take
            (min 101 (max 1 (q.limit + 1)))).take q.limit).getLast?) } := by
    cases c with
    | none =>
      simp only [listProducts, matchesFilters_setCursor, rowLe_setCursor, Bool.and_true,
        pageSel, matchingSorted, nextCursorOf_setCursor]
    | some cur =>
      have hfil : (rows.filter fun p => matchesFilters ft q p && seekPred q cur p)
          = (rows.filter (matchesFilters ft q)).filter (seekPred q cur) := by
        rw [List.filter_filter]
        exact List.filter_congr fun a _ => Bool.and_comm _ _
      have hms : (((rows.filter (matchesFilters ft q)).filter
            (seekPred q cur)).insertionSort fun a b => rowLe q a b = true)
          = pageSel q (matchingSorted ft rows q) (some cur) := by
        simpa [pageSel, matchingSorted] using
          insertionSort_filter_comm (rowLe q) (rowLe_trans q) (rowLe_total q)
            (seekPred q cur) hnt
      simp only [listProducts, matchesFilters_setCursor, rowLe_setCursor,
        seekPred_setCursor, nextCursorOf_setCursor]
      simp only [hfil, hms]
  rw [hsorted]
  have hlim : min 101 (max 1 (q.limit + 1)) = q.limit + 1 := by omega
  rw [hlim]
  have htake : ((pageSel q (matchingSorted ft rows q) c).take (q.limit + 1)).take q.limit
      = (pageSel q (matchingSorted ft rows q) c).take q.limit := by
    rw [List.take_take]
    congr 1
    omega
  have hmore : decide (q.limit <
        ((pageSel q (matchingSorted ft rows q) c).take (q.limit + 1)).length)
      = decide (q.limit < (pageSel q (matchingSorted ft rows q) c).length) := by
    apply decide_eq_decide.mpr
    rw [List.length_take]
    constructor <;> intro h <;> omega
  rw [htake, hmore]

theorem take_getLast? {α : Type} (d : List α) (n : Nat) (h1 : 0 < n) (h2 : n ≤ d.length) :
    (d.take n).getLast? = some (d.get ⟨n - 1, by omega⟩) := by
  rw [List.getLast?_eq_getElem?]
  have hlen : (d.take n).length = n := by rw [List.length_take]; omega
  have h3 : n - 1 < (d.take n).length := by omega
  rw [hlen, List.getElem?_eq_getElem h3]
  congr 1
  rw [List.getElem_take, List.get_eq_getElem]

/-- Walking the pages from a cursor that selects the suffix at position `j`
returns exactly that suffix, provided the fuel covers the remaining pages. -/
theorem collectPages_eq_drop (ft : String → Product → Bool) (rows : List Product)
    (q : ProductListQuery)
    (hid : (rows.map Product.id).Nodup) (hl1 : 1 ≤ q.limit) (hl2 : q.limit ≤ 100) :
    ∀ (fuel : Nat) (c : Option Cursor) (j : Nat),
      pageSel q (matchingSorted ft rows q) c = (matchingSorted ft rows q).drop j →
      (matchingSorted ft rows q).length - j ≤ fuel * q.limit →
      collectPages ft rows q fuel c = (matchingSorted ft rows q).drop j := by
  have hkeyneM := pairwise_keyNe_filter ft rows q hid
  have hperm : (matchingSorted ft rows q).Perm (rows.filter (matchesFilters ft q)) :=
    List.perm_insertionSort _ _
  have hkeyS : (matchingSorted ft rows q).Pairwise
      (fun a b => rowKey q a ≠ rowKey q b) :=
    (hperm.pairwise_iff fun h he => h he.symm).mpr hkeyneM
  have hsortedLe : (matchingSorted ft rows q).Pairwise
      (fun a b => rowLe q a b = true) :=
    insertionSort_sorted (rowLe q) (rowLe_trans q) (rowLe_total q) _
  have hstrict : (matchingSorted ft rows q).Pairwise
      (fun a b => rowLt q a b = true) :=
    (hsortedLe.and hkeyS).imp fun h => rowLt_of_rowLe_keyNe q h.1 h.2
  intro fuel
  induction fuel with
  | zero =>
    intro c j hinv hfuel
    rw [collectPages, List.drop_eq_nil_of_le (by omega)]
  | succ fuel ih =>
    intro c j hinv hfuel
    rw [collectPages]
    simp only [listProducts_run ft rows q c hid hl1 hl2, hinv]
    by_cases hM : q.limit < ((matchingSorted ft rows q).drop j).length
    · have hMd := decide_eq_true hM
      have hlen : q.limit ≤ ((matchingSorted ft rows q).drop j).length := le_of_lt hM
      rw [hMd, take_getLast? _ _ (by omega) hlen]
      have hk : j + q.limit - 1 < (matchingSorted ft rows q).length := by
        rw [List.length_drop] at hM
        omega
      have hlast : ((matchingSorted ft rows q).drop j).get ⟨q.limit - 1, by omega⟩
          = (matchingSorted ft rows q).get ⟨j + q.limit - 1, hk⟩ := by
        simp only [List.get_eq_getElem, List.getElem_drop]
        congr 1
        omega
      rw [hlast]
      simp only [nextCursorOf]
      have hinv2 : pageSel q (matchingSorted ft rows q)
            (some ⟨sortValOf q.sortBy ((matchingSorted ft rows q).get ⟨j + q.limit - 1, hk⟩),
              ((matchingSorted ft rows q).get ⟨j + q.limit - 1, hk⟩).id⟩)
          = (matchingSorted ft rows q).drop (j + q.limit) := by
        show (matchingSorted ft rows q).filter _ = _
        rw [List.filter_congr fun b _ => seekPred_mint q _ b,
          filter_strict_eq_drop (rowLt q) (rowLt_asymm q) _ hstrict _ hk]
        congr 1
        omega
      have hfuel2 : (matchingSorted ft rows q).length - (j + q.limit)
          ≤ fuel * q.limit := by
        rw [Nat.succ_mul] at hfuel
        omega
      rw [ih _ _ hinv2 hfuel2]
      rw [show (matchingSorted ft rows q).drop (j + q.limit)
          = ((matchingSorted ft rows q).drop j).drop q.limit by rw [List.drop_drop]]
      exact List.take_append_drop _ _
    · have hMd := decide_eq_false hM
      rw [hMd]
      exact List.take_of_length_le (by omega)

/-- Claim C1: for every static dataset with distinct row ids and every valid
combination of `sortBy`, `sortOrder`, filters and page size, repeatedly calling
`listProducts` and feeding each page's `nextCursor` back in until
`hasMore = false` yields every row matching the filters exactly once, in the
requested `(sortColumn, id)` sort order, with no duplicates and no omissions:
the concatenated pages equal the full sorted matching list, are a permutation
of the matching rows, are sorted by the requested order, and have no
duplicates. -/
theorem C1_cursor_walk_yields_all_matching_rows
    (ft : String → Product → Bool) (rows : List Product) (q : ProductListQuery)
    (hid : (rows.map Product.id).Nodup) (hl1 : 1 ≤ q.limit) (hl2 : q.limit ≤ 100) :
    collectPages ft rows q (rows.length + 1) none = matchingSorted ft rows q
    ∧ (collectPages ft rows q (rows.length + 1) none).Perm
        (rows.filter (matchesFilters ft q))
    ∧ (collectPages ft rows q (rows.length + 1) none).Pairwise
        (fun a b => rowLe q a b = true)
    ∧ (collectPages ft rows q (rows.length + 1) none).Nodup := by
  have hperm : (matchingSorted ft rows q).Perm (rows.filter (matchesFilters ft q)) :=
    List.perm_insertionSort _ _
  have hmain : collectPages ft rows q (rows.length + 1) none
      = matchingSorted ft rows q := by
    have h0 : pageSel q (matchingSorted ft rows q) none
        = (matchingSorted ft rows q).drop 0 := by
      simp [pageSel]
    have hlenle : (matchingSorted ft rows q).length ≤ rows.length := by
      rw [hperm.length_eq]
      exact List.length_filter_le _ _
    have hfuel : (matchingSorted ft rows q).length - 0
        ≤ (rows.length + 1) * q.limit := by
      have h2 : rows.length + 1 ≤ (rows.length + 1) * q.limit :=
        Nat.le_mul_of_pos_right _ (by omega)
      omega
    simpa using collectPages_eq_drop ft rows q hid hl1 hl2 (rows.length + 1) none 0 h0 hfuel
  have hsortedLe : (matchingSorted ft rows q).Pairwise
      (fun a b => rowLe q a b = true) :=
    insertionSort_sorted (rowLe q) (rowLe_trans q) (rowLe_total q) _
  have hnodup : (matchingSorted ft rows q).Nodup := by
    have hrows : rows.Nodup := List.Nodup.of_map _ hid
    have hfilter : (rows.filter (matchesFilters ft q)).Nodup :=
      (List.filter_sublist rows).nodup hrows
    exact hperm.symm.nodup hfilter
  exact ⟨hmain, hmain ▸ hperm, hmain ▸ hsortedLe, hmain ▸ hnodup⟩

/-- Witness for C1 at a concrete dataset and query. -/
theorem C1_cursor_walk_witness :
    (([⟨1, "p1", none, 10, "catA", 0⟩, ⟨2, "p2", none, 10, "catA", 0⟩,
        ⟨3, "p3", none, 20, "catA", 0⟩, ⟨4, "p4", none, 5, "catA", 0⟩] :
        List Product).map Product.id).Nodup
    ∧ collectPages (fun _ _ => true)
        [⟨1, "p1", none, 10, "catA", 0⟩, ⟨2, "p2", none, 10, "catA", 0⟩,
          ⟨3, "p3", none, 20, "catA", 0⟩, ⟨4, "p4", none, 5, "catA", 0⟩]
        { limit := 2, sortBy := .price, sortOrder := .asc }
        (([⟨1, "p1", none, 10, "catA", 0⟩, ⟨2, "p2", none, 10, "catA", 0⟩,
          ⟨3, "p3", none, 20, "catA", 0⟩, ⟨4, "p4", none, 5, "catA", 0⟩] :
          List Product).length + 1) none
      = matchingSorted (fun _ _ => true)
        [⟨1, "p1", none, 10, "catA", 0⟩, ⟨2, "p2", none, 10, "catA", 0⟩,
          ⟨3, "p3", none, 20, "catA", 0⟩, ⟨4, "p4", none, 5, "catA", 0⟩]
        { limit := 2, sortBy := .price, sortOrder := .asc } :=
  ⟨by decide,
    (C1_cursor_walk_yields_all_matching_rows (fun _ _ => true) _ _
      (by decide) (by decide) (by decide)).1⟩

/-- Claim C2: on the dataset with `(id, price)` equal to
`(1,10), (2,10), (3,20), (4,5)`, with `limit = 2`, `sortBy = price`,
`sortOrder = asc` and no filters, the first page returns the rows with ids 4
and 1, `hasMore = true` and `nextCursor = (10, 1)`; the second call with that
cursor returns the rows with ids 2 and 3, `hasMore = false` and no cursor. -/
theorem C2_price_asc_two_page_example :
    listProducts (fun _ _ => true)
        [⟨1, "p1", none, 10, "catA", 0⟩, ⟨2, "p2", none, 10, "catA", 0⟩,
          ⟨3, "p3", none, 20, "catA", 0⟩, ⟨4, "p4", none, 5, "catA", 0⟩]
        { limit := 2, sortBy := .price, sortOrder := .asc }
      = { items := [⟨4, "p4", none, 5, "catA", 0⟩, ⟨1, "p1", none, 10, "catA", 0⟩]
          hasMore := true
          nextCursor := some ⟨.num 10, 1⟩ }
    ∧ listProducts (fun _ _ => true)
        [⟨1, "p1", none, 10, "catA", 0⟩, ⟨2, "p2", none, 10, "catA", 0⟩,
          ⟨3, "p3", none, 20, "catA", 0⟩, ⟨4, "p4", none, 5, "catA", 0⟩]
        { limit := 2, sortBy := .price, sortOrder := .asc,
          cursor := some ⟨.num 10, 1⟩ }
      = { items := [⟨2, "p2", none, 10, "catA", 0⟩, ⟨3, "p3", none, 20, "catA", 0⟩]
          hasMore := false
          nextCursor := none } := by
  constructor <;> decide

/-! ### Theorems: cache-with-lock (claims C4 and C5) -/

theorem storeDel_of_absent {T : Type} (st : Store T) (k : String)
    (h : storeGet st k = none) : storeDel st k = st := by
  apply List.filter_eq_self.mpr
  intro kv hkv
  have hfind : st.find? (fun kv => kv.1 == k) = none := by
    cases hf : st.find? (fun kv => kv.1 == k) with
    | none => rfl
    | some x => rw [storeGet, hf] at h; simp at h
  have := List.find?_eq_none.mp hfind kv hkv
  simpa using this

theorem storeGet_storeSet_self {T : Type} (st : Store T) (k : String) (v : StoreVal T) :
    storeGet (storeSet st k v) k = some v := by
  simp [storeGet, storeSet, List.find?_cons]

theorem storeDel_storeSet {T : Type} (st : Store T) (k : String) (v : StoreVal T) :
    storeDel (storeSet st k v) k = storeDel st k := by
  simp only [storeDel, storeSet, List.filter_cons]
  rw [show (!(k == k)) = false by simp]
  simp only [Bool.false_eq_true, if_false]
  rw [List.filter_filter]
  exact List.filter_congr fun a _ => by simp

theorem releaseLock_of_held {T : Type} (st : Store T) (k tok : String) :
    releaseLock (storeSet st k (.raw tok)) k tok = storeDel st k := by
  rw [releaseLock, storeGet_storeSet_self]
  simp [storeDel_storeSet]

/-- Claim C4: when `withCache` acquires the lock and `compute` then throws, the
lock is still released via the compare-and-delete script with the holder's
token, no cache entry is written for the key, the store is left exactly as it
was, and the error propagates unchanged to the caller. -/
theorem C4_compute_throw_releases_lock_uncached {T E : Type}
    (key : String) (ttlSeconds lockTtlMs : Nat) (token : String)
    (e : E) (probe : Nat → Option T) (st : Store T)
    (hmiss : cacheGet st key = none)
    (hnolock : storeGet st (key ++ ":lock") = none) :
    withCache true key ttlSeconds lockTtlMs token (Except.error e) probe st
        = { outcome := Except.error e, store := st, sleptMs := 0 }
    ∧ cacheGet (withCache true key ttlSeconds lockTtlMs token
        (Except.error e) probe st).store key = none
    ∧ storeGet (withCache true key ttlSeconds lockTtlMs token
        (Except.error e) probe st).store (key ++ ":lock") = none := by
  have hrun : withCache true key ttlSeconds lockTtlMs token (Except.error e) probe st
      = { outcome := Except.error e, store := st, sleptMs := 0 } := by
    rw [withCache]
    simp only [Bool.not_true, Bool.false_eq_true, if_false, hmiss, acquireLock, hnolock]
    rw [releaseLock_of_held, storeDel_of_absent _ _ hnolock]
  refine ⟨hrun, ?_, ?_⟩
  · rw [hrun]; exact hmiss
  · rw [hrun]; exact hnolock

/-- Witness for C4 at a concrete store, key, token and error. -/
theorem C4_witness :
    cacheGet ([] : Store Nat) "k" = none
    ∧ storeGet ([] : Store Nat) ("k" ++ ":lock") = none
    ∧ (withCache true "k" 60 3000 "tok" (Except.error "boom") (fun _ => none)
        ([] : Store Nat)).outcome = Except.error "boom" :=
  ⟨rfl, rfl, by
    rw [(C4_compute_throw_releases_lock_uncached "k" 60 3000 "tok" "boom"
      (fun _ => none) [] rfl rfl).1]⟩

theorem pollLoop_elapsed_eq {T : Type} (probe : Nat → Option T) (mw : Nat) :
    ∀ fuel elapsed delay,
      (pollLoop probe mw fuel elapsed delay).2.1
        = elapsed + (pollLoop probe mw fuel elapsed delay).2.2.sum := by
  intro fuel
  induction fuel with
  | zero => intro elapsed delay; simp [pollLoop]
  | succ fuel ih =>
    intro elapsed delay
    rw [pollLoop]
    by_cases h : elapsed < mw
    · rw [if_pos h]
      dsimp only
      cases hp : probe (elapsed + delay) with
      | some v => simp
      | none =>
        dsimp only
        have := ih (elapsed + delay) (min 250 (delay * 2))
        simp only [List.sum_cons]
        omega
    · rw [if_neg h]; simp

theorem pollLoop_budget {T : Type} (probe : Nat → Option T) (mw : Nat) :
    ∀ fuel elapsed delay, delay ≤ 250 →
      (pollLoop probe mw fuel elapsed delay).2.1 ≤ max elapsed (mw + 249) := by
  intro fuel
  induction fuel with
  | zero => intro elapsed delay _; simp [pollLoop]
  | succ fuel ih =>
    intro elapsed delay hd
    rw [pollLoop]
    by_cases h : elapsed < mw
    · rw [if_pos h]
      dsimp only
      cases hp : probe (elapsed + delay) with
      | some v => dsimp only; omega
      | none =>
        dsimp only
        have := ih (elapsed + delay) (min 250 (delay * 2)) (by omega)
        omega
    · rw [if_neg h]; simp

theorem pollLoop_sleep_bounds {T : Type} (probe : Nat → Option T) (mw : Nat) :
    ∀ fuel elapsed delay, 50 ≤ delay → delay ≤ 250 →
      ∀ d ∈ (pollLoop probe mw fuel elapsed delay).2.2, 50 ≤ d ∧ d ≤ 250 := by
  intro fuel
  induction fuel with
  | zero => intro elapsed delay _ _ d hd; simp [pollLoop] at hd
  | succ fuel ih =>
    intro elapsed delay h50 h250 d hd
    rw [pollLoop] at hd
    by_cases h : elapsed < mw
    · rw [if_pos h] at hd
      dsimp only at hd
      cases hp : probe (elapsed + delay) with
      | some v => rw [hp] at hd; simp at hd; omega
      | none =>
        rw [hp] at hd
        dsimp only at hd
        simp only [List.mem_cons] at hd
        rcases hd with rfl | hd
        · omega
        · exact ih (elapsed + delay) (min 250 (delay * 2)) (by omega) (by omega) d hd
    · rw [if_neg h] at hd; simp at hd

theorem chain_le_weaken {a b : Nat} {l : List Nat} (h : a ≤ b)
    (hc : List.Chain (· ≤ ·) b l) : List.Chain (· ≤ ·) a l := by
  cases hc with
  | nil => exact List.Chain.nil
  | cons h1 h2 => exact List.Chain.cons (le_trans h h1) h2

theorem pollLoop_sleeps_chain {T : Type} (probe : Nat → Option T) (mw : Nat) :
    ∀ fuel elapsed delay, delay ≤ 250 →
      List.Chain (· ≤ ·) delay (pollLoop probe mw fuel elapsed delay).2.2 := by
  intro fuel
  induction fuel with
  | zero => intro elapsed delay _; simp [pollLoop]
  | succ fuel ih =>
    intro elapsed delay h250
    rw [pollLoop]
    by_cases h : elapsed < mw
    · rw [if_pos h]
      dsimp only
      cases hp : probe (elapsed + delay) with
      | some v => exact List.Chain.cons (le_refl _) List.Chain.nil
      | none =>
        dsimp only
        refine List.Chain.cons (le_refl _) ?_
        exact chain_le_weaken (by omega)
          (ih (elapsed + delay) (min 250 (delay * 2)) (by omega))
    · rw [if_neg h]; exact List.Chain.nil

theorem pollLoop_none_budget_spent {T : Type} (probe : Nat → Option T) (mw : Nat) :
    ∀ fuel elapsed delay, 1 ≤ delay → mw ≤ elapsed + fuel →
      (pollLoop probe mw fuel elapsed delay).1 = none →
      mw ≤ (pollLoop probe mw fuel elapsed delay).2.1 := by
  intro fuel
  induction fuel with
  | zero => intro elapsed delay _ hle _; simpa [pollLoop] using hle
  | succ fuel ih =>
    intro elapsed delay h1 hle hnone
    rw [pollLoop] at hnone ⊢
    by_cases h : elapsed < mw
    · rw [if_pos h] at hnone ⊢
      dsimp only at hnone ⊢
      cases hp : probe (elapsed + delay) with
      | some v => rw [hp] at hnone; simp at hnone
      | none =>
        rw [hp] at hnone
        dsimp only at hnone ⊢
        exact ih (elapsed + delay) (min 250 (delay * 2)) (by omega) (by omega) hnone
    · rw [if_neg h] at hnone ⊢; dsimp only at hnone ⊢; omega

theorem pollLoop_found_probe {T : Type} (probe : Nat → Option T) (mw : Nat) :
    ∀ fuel elapsed delay (v : T),
      (pollLoop probe mw fuel elapsed delay).1 = some v →
      probe (pollLoop probe mw fuel elapsed delay).2.1 = some v := by
  intro fuel
  induction fuel with
  | zero => intro elapsed delay v hv; simp [pollLoop] at hv
  | succ fuel ih =>
    intro elapsed delay v hv
    rw [pollLoop] at hv ⊢
    by_cases h : elapsed < mw
    · rw [if_pos h] at hv ⊢
      dsimp only at hv ⊢
      cases hp : probe (elapsed + delay) with
      | some w =>
        rw [hp] at hv
        dsimp only at hv ⊢
        simp only [Option.some.injEq] at hv
        rw [hp, hv]
      | none =>
        rw [hp] at hv
        dsimp only at hv ⊢
        exact ih (elapsed + delay) (min 250 (delay * 2)) v hv
    · rw [if_neg h] at hv; dsimp only at hv; simp at hv

theorem pollLoop_first_sleep {T : Type} (probe : Nat → Option T)
    (mw fuel elapsed delay : Nat) (h : elapsed < mw) :
    ((pollLoop probe mw (fuel + 1) elapsed delay).2.2).head? = some delay := by
  rw [pollLoop, if_pos h]
  dsimp only
  cases hp : probe (elapsed + delay) <;> rfl

/-- A `withCache` run that misses and fails to acquire the lock is the poll
loop followed by WAIT or direct-compute BYPASS. -/
theorem withCache_locked_run {T E : Type} (key : String) (ttlSeconds lockTtlMs : Nat)
    (token : String) (compute : Except E T) (probe : Nat → Option T) (st : Store T)
    (hmiss : cacheGet st key = none)
    (hheld : storeGet st (key ++ ":lock") ≠ none) :
    withCache true key ttlSeconds lockTtlMs token compute probe st
      = match (pollLoop probe (min 1000 lockTtlMs) (min 1000 lockTtlMs + 1) 0 50).1 with
        | some v =>
          { outcome := Except.ok (v, CacheStatus.WAIT)
            store := st
            sleptMs := (pollLoop probe (min 1000 lockTtlMs)
              (min 1000 lockTtlMs + 1) 0 50).2.1 }
        | none =>
          { outcome := compute.map fun v => (v, CacheStatus.BYPASS)
            store := st
            sleptMs := (pollLoop probe (min 1000 lockTtlMs)
              (min 1000 lockTtlMs + 1) 0 50).2.1 } := by
  obtain ⟨w, hw⟩ := Option.ne_none_iff_exists'.mp hheld
  rw [withCache]
  simp only [Bool.not_true, Bool.false_eq_true, if_false, hmiss, acquireLock, hw]

/-- Claim C5, amended: on a miss with the lock already held, the caller polls
on an increasing backoff starting at 50 ms and capped at 250 ms; the total
sleep is bounded by `min 1000 CACHE_LOCK_TTL_MS + 249` (the budget check
precedes each sleep, so the final sleep may overshoot the budget by up to the
250 ms cap, but no new sleep starts once the budget is exhausted); if a value
appears during polling it is returned with status WAIT; otherwise, only after
the budget is spent, `compute` is called directly and BYPASS is returned —
the caller never blocks indefinitely. -/
theorem C5_poll_backoff_wait_bypass {T E : Type} (key : String)
    (ttlSeconds lockTtlMs : Nat) (token : String) (compute : Except E T)
    (probe : Nat → Option T) (st : Store T)
    (hmiss : cacheGet st key = none)
    (hheld : storeGet st (key ++ ":lock") ≠ none) :
    ((withCache true key ttlSeconds lockTtlMs token compute probe st).sleptMs
        ≤ min 1000 lockTtlMs + 249)
    ∧ List.Chain (· ≤ ·) 50
        (pollLoop probe (min 1000 lockTtlMs) (min 1000 lockTtlMs + 1) 0 50).2.2
    ∧ (∀ d ∈ (pollLoop probe (min 1000 lockTtlMs) (min 1000 lockTtlMs + 1) 0 50).2.2,
        50 ≤ d ∧ d ≤ 250)
    ∧ ((pollLoop probe (min 1000 lockTtlMs) (min 1000 lockTtlMs + 1) 0 50).2.1
        = (pollLoop probe (min 1000 lockTtlMs) (min 1000 lockTtlMs + 1) 0 50).2.2.sum)
    ∧ (∀ v, (pollLoop probe (min 1000 lockTtlMs) (min 1000 lockTtlMs + 1) 0 50).1 = some v →
        (withCache true key ttlSeconds lockTtlMs token compute probe st).outcome
          = Except.ok (v, CacheStatus.WAIT))
    ∧ ((pollLoop probe (min 1000 lockTtlMs) (min 1000 lockTtlMs + 1) 0 50).1 = none →
        (withCache true key ttlSeconds lockTtlMs token compute probe st).outcome
            = compute.map (fun v => (v, CacheStatus.BYPASS))
          ∧ min 1000 lockTtlMs
            ≤ (withCache true key ttlSeconds lockTtlMs token compute probe st).sleptMs) := by
  have hrun := withCache_locked_run key ttlSeconds lockTtlMs token compute probe st
    hmiss hheld
  have hbound : (pollLoop probe (min 1000 lockTtlMs) (min 1000 lockTtlMs + 1) 0 50).2.1
      ≤ min 1000 lockTtlMs + 249 := by
    have := pollLoop_budget probe (min 1000 lockTtlMs)
      (min 1000 lockTtlMs + 1) 0 50 (by omega)
    omega
  have hslept : (withCache true key ttlSeconds lockTtlMs token compute probe st).sleptMs
      = (pollLoop probe (min 1000 lockTtlMs) (min 1000 lockTtlMs + 1) 0 50).2.1 := by
    rw [hrun]
    cases (pollLoop probe (min 1000 lockTtlMs) (min 1000 lockTtlMs + 1) 0 50).1 <;> rfl
  refine ⟨by rw [hslept]; exact hbound,
    pollLoop_sleeps_chain probe _ _ 0 50 (by omega),
    pollLoop_sleep_bounds probe _ _ 0 50 (by omega) (by omega),
    by simpa using pollLoop_elapsed_eq probe _ (min 1000 lockTtlMs + 1) 0 50,
    ?_, ?_⟩
  · intro v hv
    rw [hrun, hv]
  · intro hnone
    constructor
    · rw [hrun, hnone]
    · rw [hslept]
      exact pollLoop_none_budget_spent probe _ _ 0 50 (by omega) (by omega) hnone

/-- Claim C5 as stated is false on the code: with `CACHE_LOCK_TTL_MS = 2000`
the wait budget is `min 1000 2000 = 1000` ms, yet a caller that misses, fails
to take the lock and never sees a value sleeps `50+100+200+250+250+250 = 1100`
ms in total, exceeding the stated bound. -/
theorem C5_total_wait_counterexample :
    (withCache (E := String) true "k" 60 2000 "tok" (Except.ok 42) (fun _ => none)
        ([("k" ++ ":lock", StoreVal.raw "other")] : Store Nat)).sleptMs = 1100
    ∧ ¬((withCache (E := String) true "k" 60 2000 "tok" (Except.ok 42) (fun _ => none)
        ([("k" ++ ":lock", StoreVal.raw "other")] : Store Nat)).sleptMs
          ≤ min 1000 2000) := by
  constructor
  · rfl
  · decide

/-- Witness for the amended C5 at a concrete store and probe: the value
appears at elapsed time 150 ms during polling and is returned with WAIT. -/
theorem C5_poll_witness :
    cacheGet ([("k" ++ ":lock", StoreVal.raw "x")] : Store Nat) "k" = none
    ∧ storeGet ([("k" ++ ":lock", StoreVal.raw "x")] : Store Nat) ("k" ++ ":lock") ≠ none
    ∧ (withCache (E := String) true "k" 60 2000 "tok" (Except.ok 5)
        (fun e => if 100 ≤ e then some 7 else none)
        ([("k" ++ ":lock", StoreVal.raw "x")] : Store Nat)).outcome
      = Except.ok (7, CacheStatus.WAIT) :=
  ⟨rfl, by decide,
    (C5_poll_backoff_wait_bypass "k" 60 2000 "tok" (Except.ok 5)
      (fun e => if 100 ≤ e then some 7 else none)
      ([("k" ++ ":lock", StoreVal.raw "x")] : Store Nat) rfl
      (by decide)).2.2.2.2.1 7 (by decide)⟩

/-! ### Theorems: circuit breaker (claim C6) -/

theorem fetch_open_cooldown {D : Type} (th cd now t : Nat) (att : Except String D)
    (b : Breaker D) (hs : b.state = .opened) (ht : b.openedAtMs = some t)
    (hcd : now - t < cd) :
    fetchExternalApiA true th cd now att b
      = ({ source := .fallback
           data := (match b.lastSuccessData with
             | some d => .real d
             | none => .placeholderUnavailable)
           reason := some "circuit_open" }, b, false) := by
  have hio : isBreakerOpen cd now b = true := by
    unfold isBreakerOpen
    rw [hs, ht]
    simpa using hcd
  unfold fetchExternalApiA maybeToHalfOpen
  simp only [hs, hio, if_true, Bool.not_true, Bool.false_eq_true, if_false]

theorem fetch_open_elapsed_halfOpen {D : Type} (cd now t : Nat) (b : Breaker D)
    (hs : b.state = .opened) (ht : b.openedAtMs = some t) (hcd : cd ≤ now - t) :
    maybeToHalfOpen cd now b = { b with state := .halfOpen } := by
  have hio : isBreakerOpen cd now b = false := by
    unfold isBreakerOpen
    rw [hs, ht]
    simp
    omega
  unfold maybeToHalfOpen
  simp only [hs, hio, Bool.false_eq_true, if_false]

theorem isBreakerOpen_halfOpen {D : Type} (cd now : Nat) (b : Breaker D)
    (hs : b.state = .halfOpen) : isBreakerOpen cd now b = false := by
  unfold isBreakerOpen
  rw [hs]

theorem isBreakerOpen_closed {D : Type} (cd now : Nat) (b : Breaker D)
    (hs : b.state = .closed) : isBreakerOpen cd now b = false := by
  unfold isBreakerOpen
  rw [hs]

theorem maybeToHalfOpen_closed {D : Type} (cd now : Nat) (b : Breaker D)
    (hs : b.state = .closed) : maybeToHalfOpen cd now b = b := by
  unfold maybeToHalfOpen
  rw [hs]

theorem maybeToHalfOpen_halfOpen {D : Type} (cd now : Nat) (b : Breaker D)
    (hs : b.state = .halfOpen) : maybeToHalfOpen cd now b = b := by
  unfold maybeToHalfOpen
  rw [hs]

/-- Preservation of the breaker invariant by one call. -/
theorem fetchExternalApiA_WF {D : Type} (threshold cooldownMs now : Nat)
    (attempt : Except String D) (b : Breaker D) (hwf : BreakerWF threshold b) :
    BreakerWF threshold
      (fetchExternalApiA true threshold cooldownMs now attempt b).2.1 := by
  obtain ⟨hwf1, hwf2⟩ := hwf
  have hattempt : ∀ b1 : Breaker D, (b1.state ≠ .closed → threshold ≤ b1.consecutiveFailures) →
      BreakerWF threshold
        (match attempt with
          | .ok d =>
            (({ source := .live, data := .real d, reason := none } : AResult D),
              recordSuccess d b1, true)
          | .error msg =>
            let b2 := recordFailure threshold now b1
            ({ source := .fallback
               data := (match b2.lastSuccessData with
                 | some d => .real d
                 | none => .placeholderFailed)
               reason := some msg }, b2, true)).2.1 := by
    intro b1 h1
    cases attempt with
    | ok d =>
      refine ⟨fun h => absurd rfl h, fun h => by simp [recordSuccess] at h⟩
    | error msg =>
      dsimp only
      unfold recordFailure openBreaker
      by_cases hthr : threshold ≤ b1.consecutiveFailures + 1
      · rw [if_pos hthr]
        exact ⟨fun _ => hthr, fun _ => by simp⟩
      · rw [if_neg hthr]
        refine ⟨fun h => ?_, fun h => ?_⟩
        · exact absurd (Nat.le_succ_of_le (h1 h)) hthr
        · exact absurd (Nat.le_succ_of_le (h1 (by rw [h]; intro hc; cases hc))) hthr
  cases hb : b.state with
  | closed =>
    unfold fetchExternalApiA
    rw [maybeToHalfOpen_closed _ _ _ hb]
    simp only [isBreakerOpen_closed _ _ _ hb, Bool.not_true, Bool.false_eq_true, if_false]
    exact hattempt b (fun h => absurd hb h)
  | opened =>
    cases hoa : b.openedAtMs with
    | none => exact absurd hoa (hwf2 hb)
    | some t =>
      by_cases hcd : now - t < cooldownMs
      · rw [fetch_open_cooldown _ _ _ _ _ _ hb hoa hcd]
        exact ⟨hwf1, hwf2⟩
      · unfold fetchExternalApiA
        rw [fetch_open_elapsed_halfOpen _ _ _ _ hb hoa (by omega)]
        simp only [isBreakerOpen_halfOpen _ _ _ (rfl : ({ b with state := .halfOpen } :
          Breaker D).state = .halfOpen), Bool.not_true, Bool.false_eq_true, if_false]
        exact hattempt _ (fun _ => hwf1 (by rw [hb]; intro hc; cases hc))
  | halfOpen =>
    unfold fetchExternalApiA
    rw [maybeToHalfOpen_halfOpen _ _ _ hb]
    simp only [isBreakerOpen_halfOpen _ _ _ hb, Bool.not_true, Bool.false_eq_true, if_false]
    exact hattempt b (fun _ => hwf1 (by rw [hb]; intro hc; cases hc))

/-- Claim C6: the circuit breaker satisfies the spec's state machine.  With the
dependency enabled and a positive failure threshold, for every breaker state
satisfying the reachability invariant: (i) a failure in `closed` state that
brings the consecutive-failure count to the threshold transitions the state to
open and stamps the opening time; (ii) every call while open and within
`cooldownMs` returns the cached last-good data (or the static placeholder if
none exists) as a fallback tagged `circuit_open` without invoking the
dependency, leaving the state untouched; (iii) once `cooldownMs` has elapsed
the next call is attempted in `half_open` state: a success resets
`consecutiveFailures` to 0 and closes the breaker, returning the live data,
while a failure reopens the breaker and restarts the cooldown clock at the
current time; and (iv) the invariant is preserved. -/
theorem C6_circuit_breaker_state_machine {D : Type}
    (threshold cooldownMs now : Nat) (attempt : Except String D) (b : Breaker D)
    (hth : 1 ≤ threshold) (hwf : BreakerWF threshold b) :
    (∀ msg, b.state = .closed → attempt = .error msg →
      threshold ≤ b.consecutiveFailures + 1 →
      (fetchExternalApiA true threshold cooldownMs now attempt b).2.1.state = .opened
      ∧ (fetchExternalApiA true threshold cooldownMs now attempt b).2.1.openedAtMs
          = some now)
    ∧ (∀ t, b.state = .opened → b.openedAtMs = some t → now - t < cooldownMs →
      (fetchExternalApiA true threshold cooldownMs now attempt b).1
          = { source := .fallback
              data := (match b.lastSuccessData with
                | some d => .real d
                | none => .placeholderUnavailable)
              reason := some "circuit_open" }
      ∧ (fetchExternalApiA true threshold cooldownMs now attempt b).2.1 = b
      ∧ (fetchExternalApiA true threshold cooldownMs now attempt b).2.2 = false)
    ∧ (∀ t, b.state = .opened → b.openedAtMs = some t → cooldownMs ≤ now - t →
      (maybeToHalfOpen cooldownMs now b).state = .halfOpen
      ∧ (fetchExternalApiA true threshold cooldownMs now attempt b).2.2 = true
      ∧ (∀ d, attempt = .ok d →
          (fetchExternalApiA true threshold cooldownMs now attempt b).2.1.state = .closed
          ∧ (fetchExternalApiA true threshold cooldownMs now
              attempt b).2.1.consecutiveFailures = 0
          ∧ (fetchExternalApiA true threshold cooldownMs now attempt b).1
              = { source := .live, data := .real d, reason := none })
      ∧ (∀ msg, attempt = .error msg →
          (fetchExternalApiA true threshold cooldownMs now attempt b).2.1.state = .opened
          ∧ (fetchExternalApiA true threshold cooldownMs now attempt b).2.1.openedAtMs
              = some now))
    ∧ BreakerWF threshold (fetchExternalApiA true threshold cooldownMs now attempt b).2.1 := by
  refine ⟨?_, ?_, ?_, fetchExternalApiA_WF threshold cooldownMs now attempt b hwf⟩
  · intro msg hs hatt hthr
    subst hatt
    unfold fetchExternalApiA
    rw [maybeToHalfOpen_closed _ _ _ hs]
    simp only [isBreakerOpen_closed _ _ _ hs, Bool.not_true, Bool.false_eq_true, if_false]
    unfold recordFailure openBreaker
    rw [if_pos hthr]
    exact ⟨rfl, rfl⟩
  · intro t hs hoa hcd
    rw [fetch_open_cooldown _ _ _ _ _ _ hs hoa hcd]
    exact ⟨rfl, rfl, rfl⟩
  · intro t hs hoa hcd
    have hhalf := fetch_open_elapsed_halfOpen cooldownMs now t b hs hoa hcd
    have hstep : fetchExternalApiA true threshold cooldownMs now attempt b
        = (match attempt with
          | .ok d =>
            (({ source := .live, data := .real d, reason := none } : AResult D),
              recordSuccess d { b with state := .halfOpen }, true)
          | .error msg =>
            let b2 := recordFailure threshold now { b with state := .halfOpen }
            ({ source := .fallback
               data := (match b2.lastSuccessData with
                 | some d => .real d
                 | none => .placeholderFailed)
               reason := some msg }, b2, true)) := by
      unfold fetchExternalApiA
      rw [hhalf]
      simp only [isBreakerOpen_halfOpen _ _ _ (rfl : ({ b with state := .halfOpen } :
        Breaker D).state = .halfOpen), Bool.not_true, Bool.false_eq_true, if_false]
    refine ⟨by rw [hhalf], ?_, ?_, ?_⟩
    · rw [hstep]
      cases attempt <;> rfl
    · intro d hatt
      subst hatt
      rw [hstep]
      exact ⟨rfl, rfl, rfl⟩
    · intro msg hatt
      subst hatt
      rw [hstep]
      dsimp only
      unfold recordFailure openBreaker
      have : threshold ≤ b.consecutiveFailures + 1 :=
        Nat.le_succ_of_le (hwf.1 (by rw [hs]; intro hc; cases hc))
      rw [if_pos this]
      exact ⟨rfl, rfl⟩

/-- Witness for C6: a breaker opened at time 100 with threshold 3, queried at
time 200 with a 500 ms cooldown, short-circuits with the cached value. -/
theorem C6_witness :
    (1 ≤ 3 ∧ BreakerWF 3 (⟨.opened, 3, some 100, some 9⟩ : Breaker Nat))
    ∧ ((fetchExternalApiA true 3 500 200 (Except.ok 11)
          (⟨.opened, 3, some 100, some 9⟩ : Breaker Nat)).1
        = { source := .fallback, data := .real 9, reason := some "circuit_open" }
      ∧ (fetchExternalApiA true 3 500 200 (Except.ok 11)
          (⟨.opened, 3, some 100, some 9⟩ : Breaker Nat)).2.2 = false) :=
  ⟨⟨by decide, ⟨fun _ => by decide, fun _ => by decide⟩⟩, by
    have h := (C6_circuit_breaker_state_machine 3 500 200 (Except.ok 11)
      (⟨.opened, 3, some 100, some 9⟩ : Breaker Nat) (by decide)
      ⟨fun _ => by decide, fun _ => by decide⟩).2.1 100 rfl rfl (by decide)
    exact ⟨h.1, h.2.2⟩⟩

/-! ### Theorems: versioned cache keys (claim C7) -/

theorem ofDigitsRev_digitsRevAux :
    ∀ fuel n, n ≤ fuel → ofDigitsRev (digitsRevAux fuel n) = n := by
  intro fuel
  induction fuel with
  | zero =>
    intro n hn
    have : n = 0 := by omega
    subst this
    rfl
  | succ fuel ih =>
    intro n hn
    rw [digitsRevAux]
    by_cases h0 : n = 0
    · subst h0; rfl
    · rw [if_neg h0]
      have hrec := ih (n / 10) (by omega)
      rw [ofDigitsRev, hrec]
      omega

theorem digitsRevAux_lt_10 :
    ∀ fuel n, ∀ d ∈ digitsRevAux fuel n, d < 10 := by
  intro fuel
  induction fuel with
  | zero => intro n d hd; simp [digitsRevAux] at hd
  | succ fuel ih =>
    intro n d hd
    rw [digitsRevAux] at hd
    by_cases h0 : n = 0
    · rw [if_pos h0] at hd; simp at hd
    · rw [if_neg h0] at hd
      simp only [List.mem_cons] at hd
      rcases hd with rfl | hd
      · omega
      · exact ih (n / 10) d hd

theorem digitChar_inj :
    ∀ a b, a < 10 → b < 10 → digitChar a = digitChar b → a = b := by
  intro a b ha hb
  interval_cases a <;> interval_cases b <;> decide

theorem map_digitChar_inj :
    ∀ l1 l2 : List Nat, (∀ d ∈ l1, d < 10) → (∀ d ∈ l2, d < 10) →
      l1.map digitChar = l2.map digitChar → l1 = l2 := by
  intro l1
  induction l1 with
  | nil =>
    intro l2 _ _ h
    cases l2 with
    | nil => rfl
    | cons b u => simp at h
  | cons a t ih =>
    intro l2 h1 h2 h
    cases l2 with
    | nil => simp at h
    | cons b u =>
      simp only [List.map_cons, List.cons.injEq] at h
      have hab := digitChar_inj a b (h1 a (by simp)) (h2 b (by simp)) h.1
      subst hab
      rw [ih u (fun d hd => h1 d (by simp [hd])) (fun d hd => h2 d (by simp [hd])) h.2]

theorem natDec_inj : ∀ m n : Nat, natDec m = natDec n → m = n := by
  intro m n h
  unfold natDec at h
  have hdata : ((digitsRev m).reverse).map digitChar
      = ((digitsRev n).reverse).map digitChar := by injection h
  have hrev : (digitsRev m).reverse = (digitsRev n).reverse :=
    map_digitChar_inj _ _
      (fun d hd => digitsRevAux_lt_10 m m d (List.mem_reverse.mp hd))
      (fun d hd => digitsRevAux_lt_10 n n d (List.mem_reverse.mp hd)) hdata
  have hdig : digitsRev m = digitsRev n := List.reverse_injective hrev
  have hm := ofDigitsRev_digitsRevAux m m (le_refl m)
  have hn := ofDigitsRev_digitsRevAux n n (le_refl n)
  rw [← hm, ← hn]
  unfold digitsRev at hdig
  rw [hdig]

theorem mkListKey_inj_version :
    ∀ v v' h, mkListKey v h = mkListKey v' h → v = v' := by
  intro v v' h hk
  unfold mkListKey at hk
  have hdata := congrArg String.data hk
  simp only [String.data_append] at hdata
  have h1 := List.append_cancel_right hdata
  have h2 := List.append_cancel_right h1
  have h3 := List.append_cancel_left h2
  exact natDec_inj v v' (String.ext h3)

/-- Claim C7: after `bumpVersion()` (with the cache backend up), the key minted
for identical parameters differs from every key minted before the bump — its
version segment is strictly larger; the stored version counter is monotonically
non-decreasing across all operations; and invalidation performs no per-key
deletion: the cache entries are untouched, left to expire by their own TTL. -/
theorem C7_bump_invalidates_without_deletion {T : Type} (st : PCState T)
    (params : String) (hwf : PCWF st) :
    (∀ vold, 1 ≤ vold → vold ≤ (getVersion st).1 →
      vold < (getVersion (bumpProductsCacheVersion (getVersion st).2)).1
      ∧ mkListKey vold (hashKey params)
          ≠ (getProductsListCacheKey
              (bumpProductsCacheVersion (getVersion st).2) params).1)
    ∧ versionOf st ≤ versionOf (getVersion st).2
    ∧ versionOf st ≤ versionOf (bumpProductsCacheVersion st)
    ∧ versionOf st ≤ versionOf (getProductsListCacheKey st params).2
    ∧ (bumpProductsCacheVersion st).entries = st.entries
    ∧ (getVersion st).2.entries = st.entries
    ∧ PCWF (getVersion st).2
    ∧ PCWF (bumpProductsCacheVersion st) := by
  cases hver : st.version with
  | none =>
    have e1 : getVersion st = (1, { st with version := some 1 }) := by
      unfold getVersion
      rw [hver]
    have e2 : bumpProductsCacheVersion { st with version := some 1 }
        = { st with version := some 2 } := by
      unfold bumpProductsCacheVersion
      rfl
    have e3 : getVersion ({ st with version := some 2 } : PCState T)
        = (2, { st with version := some 2 }) := by
      unfold getVersion
      rfl
    refine ⟨?_, ?_, ?_, ?_, rfl, ?_, ?_, ?_⟩
    · intro vold h1 h2
      rw [e1] at h2
      rw [e1, e2, e3]
      refine ⟨by omega, ?_⟩
      unfold getProductsListCacheKey
      rw [e3]
      intro hk
      have := mkListKey_inj_version _ _ _ hk
      omega
    · rw [e1]; simp [versionOf, hver]
    · simp [versionOf, bumpProductsCacheVersion, hver]
    · unfold getProductsListCacheKey; rw [e1]; simp [versionOf, hver]
    · rw [e1]
    · intro v hv
      rw [e1] at hv
      simp only at hv
      injection hv with hv
      omega
    · intro v hv
      simp only [bumpProductsCacheVersion, hver] at hv
      injection hv with hv
      omega
  | some v0 =>
    have hv0 : 1 ≤ v0 := hwf v0 hver
    have e1 : getVersion st = (v0, st) := by
      unfold getVersion
      rw [hver]
    have e2 : bumpProductsCacheVersion st = { st with version := some (v0 + 1) } := by
      unfold bumpProductsCacheVersion
      rw [hver]
      rfl
    have e3 : getVersion ({ st with version := some (v0 + 1) } : PCState T)
        = (v0 + 1, { st with version := some (v0 + 1) }) := by
      unfold getVersion
      rfl
    refine ⟨?_, ?_, ?_, ?_, ?_, ?_, ?_, ?_⟩
    · intro vold h1 h2
      rw [e1] at h2
      rw [e1, e2, e3]
      refine ⟨by omega, ?_⟩
      unfold getProductsListCacheKey
      rw [e3]
      intro hk
      have := mkListKey_inj_version _ _ _ hk
      omega
    · rw [e1]
    · rw [e2]; simp [versionOf, hver]
    · unfold getProductsListCacheKey; rw [e1]
    · rw [e2]
    · rw [e1]
    · intro v hv
      rw [e1] at hv
      rw [hver] at hv
      injection hv with hv
      omega
    · intro v hv
      rw [e2] at hv
      simp only at hv
      injection hv with hv
      omega

/-- Witness for C7 at a concrete state and parameter object. -/
theorem C7_witness :
    PCWF (⟨some 3, []⟩ : PCState Nat)
    ∧ (3 < (getVersion (bumpProductsCacheVersion
          (getVersion (⟨some 3, []⟩ : PCState Nat)).2)).1
      ∧ mkListKey 3 (hashKey "params")
          ≠ (getProductsListCacheKey
              (bumpProductsCacheVersion
                (getVersion (⟨some 3, []⟩ : PCState Nat)).2) "params").1) :=
  ⟨fun v h => by cases h; decide,
    (C7_bump_invalidates_without_deletion (⟨some 3, []⟩ : PCState Nat) "params"
      (fun v h => by cases h; decide)).1 3 (by decide) (by decide)⟩

/-! ### Theorems: stable stringify (claim C8) -/

theorem keyLeJ_trans :
    ∀ a b c : String × JVal, keyLeJ a b = true → keyLeJ b c = true → keyLeJ a c = true := by
  intro a b c h1 h2
  simp only [keyLeJ, decide_eq_true_eq] at h1 h2 ⊢
  exact le_trans h1 h2

theorem keyLeJ_total : ∀ a b : String × JVal, (keyLeJ a b || keyLeJ b a) = true := by
  intro a b
  simp only [keyLeJ, Bool.or_eq_true, decide_eq_true_eq]
  exact le_total a.1 b.1

theorem sortRec_jarr (xs : List JVal) : sortRec (.jarr xs) = .jarr (xs.map sortRec) := by
  rw [sortRec]
  congr 1
  exact List.attach_map_val xs sortRec

theorem sortRec_jobj (fs : List (String × JVal)) :
    sortRec (.jobj fs)
      = .jobj ((fs.map fun kv => (kv.1, sortRec kv.2)).insertionSort
          fun a b => keyLeJ a b = true) := by
  rw [sortRec]
  congr 2
  exact List.attach_map_val fs fun kv => (kv.1, sortRec kv.2)

theorem keyJ_noTies {fs : List (String × JVal)} (h : (fs.map Prod.fst).Nodup) :
    (fs.map fun kv => (kv.1, sortRec kv.2)).Pairwise
      fun a b => ¬(keyLeJ a b = true ∧ keyLeJ b a = true) := by
  have h1 : fs.Pairwise fun a b => a.1 ≠ b.1 := List.pairwise_map.mp h
  have h2 : (fs.map fun kv => (kv.1, sortRec kv.2)).Pairwise
      fun a b => a.1 ≠ b.1 := List.pairwise_map.mpr h1
  exact h2.imp fun hne hc =>
    hne (le_antisymm (by simpa [keyLeJ] using hc.1) (by simpa [keyLeJ] using hc.2))

theorem sortRec_step {v w : JVal} (h : ReorderStep v w) : sortRec v = sortRec w := by
  induction h with
  | obj_perm fs gs hnd hperm =>
    rw [sortRec_jobj, sortRec_jobj]
    congr 1
    exact insertionSort_congr_of_perm keyLeJ keyLeJ_trans keyLeJ_total
      (hperm.map _) (keyJ_noTies hnd)
  | arr_cong l r x y hstep ih =>
    have hmap : (l ++ x :: r).map sortRec = (l ++ y :: r).map sortRec := by
      simp only [List.map_append, List.map_cons, ih]
    rw [sortRec_jarr, sortRec_jarr, hmap]
  | obj_cong l r k a b hstep ih =>
    have hmap : (l ++ (k, a) :: r).map (fun kv => (kv.1, sortRec kv.2))
        = (l ++ (k, b) :: r).map (fun kv => (kv.1, sortRec kv.2)) := by
      simp only [List.map_append, List.map_cons, ih]
    rw [sortRec_jobj, sortRec_jobj, hmap]

theorem stableStringify_reorder :
    ∀ v w : JVal, Reorder v w → stableStringify v = stableStringify w := by
  intro v w h
  induction h with
  | refl => rfl
  | tail _ hbc ih => exact ih.trans (congrArg stringify (sortRec_step hbc))

/-- Claim C8: `stableStringify` — and hence the derived cache-key hash — is
invariant under re-ordering of object keys at every nesting depth: any two
logically identical values (same keys and values up to insertion order, with
arrays keeping their order and `Date`s canonicalized to their ISO string)
serialize identically; in particular the hashes of `(a:1, b:2)` and
`(b:2, a:1)` coincide. -/
theorem C8_stable_stringify_key_order_invariant :
    (∀ v w : JVal, Reorder v w → stableStringify v = stableStringify w)
    ∧ hashKey (stableStringify (.jobj [("a", .jnum 1), ("b", .jnum 2)]))
      = hashKey (stableStringify (.jobj [("b", .jnum 2), ("a", .jnum 1)])) := by
  refine ⟨stableStringify_reorder, ?_⟩
  exact congrArg hashKey (stableStringify_reorder _ _
    (Relation.ReflTransGen.single
      (ReorderStep.obj_perm _ _ (by decide) (List.Perm.swap _ _ _))))

/-- Witness for C8: a concrete reorder of a two-key object. -/
theorem C8_witness :
    stableStringify (.jobj [("a", .jnum 1), ("b", .jnum 2)])
      = stableStringify (.jobj [("b", .jnum 2), ("a", .jnum 1)]) :=
  (C8_stable_stringify_key_order_invariant).1 _ _
    (Relation.ReflTransGen.single
      (ReorderStep.obj_perm _ _ (by decide) (List.Perm.swap _ _ _)))

/-! ### Theorems: controller validation (claims C9 and C10) -/

theorem checkRange_error_400 {p : ParsedQuery} {e : AppErrorM}
    (h : checkRange p = .error e) : e.statusCode = 400 := by
  unfold checkRange at h
  split at h
  · split at h
    · injection h with h2
      subst h2
      rfl
    · exact Except.noConfusion h
  · exact Except.noConfusion h

theorem parseDateField_error_400 {parseDate : String → Option Nat} {nm : String}
    {v : Option String} {e : AppErrorM}
    (h : parseDateField parseDate nm v = .error e) : e.statusCode = 400 := by
  unfold parseDateField at h
  split at h
  · exact Except.noConfusion h
  · split at h
    · exact Except.noConfusion h
    · injection h with h2
      subst h2
      rfl

theorem validateCursor_error_400 {parseDate : String → Option Nat}
    {dec : String → Option DecodedCursor} {sb : ProductSortBy} {so : SortOrder}
    {c : Option String} {e : AppErrorM}
    (h : validateCursor parseDate dec sb so c = .error e) : e.statusCode = 400 := by
  unfold validateCursor at h
  repeat' first
    | (injection h with h2; subst h2; rfl)
    | exact Except.noConfusion h
    | split at h

theorem validateProductsQuery_error_400 {parseDate : String → Option Nat}
    {dec : String → Option DecodedCursor} {p : ParsedQuery} {e : AppErrorM}
    (h : validateProductsQuery parseDate dec p = .error e) : e.statusCode = 400 := by
  unfold validateProductsQuery at h
  split at h
  next e1 heq1 =>
    injection h with h2
    subst h2
    exact checkRange_error_400 heq1
  next u heq1 =>
    split at h
    next e1 heq2 =>
      injection h with h2
      subst h2
      exact parseDateField_error_400 heq2
    next cf heq2 =>
      split at h
      next e1 heq3 =>
        injection h with h2
        subst h2
        exact parseDateField_error_400 heq3
      next ct heq3 =>
        split at h
        next e1 heq4 =>
          injection h with h2
          subst h2
          exact validateCursor_error_400 heq4
        next cur heq4 => exact Except.noConfusion h

theorem validateProductsQuery_ok {parseDate : String → Option Nat}
    {dec : String → Option DecodedCursor} {p : ParsedQuery} {v : ValidatedQuery}
    (h : validateProductsQuery parseDate dec p = .ok v) :
    (∀ mp mx, p.minPrice = some mp → p.maxPrice = some mx → ¬ mx < mp)
    ∧ (∀ s, p.createdFrom = some s → parseDate s ≠ none)
    ∧ (∀ s, p.createdTo = some s → parseDate s ≠ none)
    ∧ (∀ c, p.cursor = some c → ∃ d, dec c = some d
        ∧ cvalIsStr d.sortBy (sortByName p.sortBy) = true
        ∧ cvalIsStr d.sortOrder (sortOrderName p.sortOrder) = true) := by
  unfold validateProductsQuery at h
  split at h
  next e1 heq1 => exact Except.noConfusion h
  next u heq1 =>
    split at h
    next e1 heq2 => exact Except.noConfusion h
    next cf heq2 =>
      split at h
      next e1 heq3 => exact Except.noConfusion h
      next ct heq3 =>
        split at h
        next e1 heq4 => exact Except.noConfusion h
        next cur heq4 =>
          refine ⟨?_, ?_, ?_, ?_⟩
          · intro mp mx hmp hmx hlt
            unfold checkRange at heq1
            rw [hmp, hmx] at heq1
            dsimp only at heq1
            rw [if_pos hlt] at heq1
            exact Except.noConfusion heq1
          · intro s hs hnone
            unfold parseDateField at heq2
            rw [hs] at heq2
            dsimp only at heq2
            rw [hnone] at heq2
            exact Except.noConfusion heq2
          · intro s hs hnone
            unfold parseDateField at heq3
            rw [hs] at heq3
            dsimp only at heq3
            rw [hnone] at heq3
            exact Except.noConfusion heq3
          · intro c hc
            unfold validateCursor at heq4
            rw [hc] at heq4
            dsimp only at heq4
            cases hdec : dec c with
            | none =>
              rw [hdec] at heq4
              dsimp only at heq4
              exact Except.noConfusion heq4
            | some d =>
              rw [hdec] at heq4
              dsimp only at heq4
              by_cases hcond : (!(cvalIsStr d.sortBy (sortByName p.sortBy))
                  || !(cvalIsStr d.sortOrder (sortOrderName p.sortOrder))) = true
              · rw [if_pos hcond] at heq4
                exact Except.noConfusion heq4
              · simp only [Bool.or_eq_true, Bool.not_eq_true', not_or,
                  Bool.not_eq_false] at hcond
                exact ⟨d, rfl, hcond.1, hcond.2⟩

/-- Claim C9: every products request whose cursor is undecodable, whose
decoded cursor carries a different `(sortBy, sortOrder)` pair than the
request, or whose range is invalid (`minPrice > maxPrice`, or unparseable
`createdFrom`/`createdTo`), is rejected by `getProductsController` with a
400-status client error carrying a descriptive message, synchronously before
any cache or storage I/O — the serving pipeline is never invoked, whatever it
is.  In particular a cursor minted under `sortBy=price` replayed with
`sortBy=name` is rejected. -/
theorem C9_invalid_requests_rejected_before_io
    (jsNumber : String → Option Rat) (parseDate : String → Option Nat)
    (dec : String → Option DecodedCursor) (raw : RawQuery) (p : ParsedQuery)
    (hp : parseQuerySchema jsNumber raw = .ok p)
    (hbad :
      (∃ mp mx, p.minPrice = some mp ∧ p.maxPrice = some mx ∧ mx < mp)
      ∨ (∃ s, p.createdFrom = some s ∧ parseDate s = none)
      ∨ (∃ s, p.createdTo = some s ∧ parseDate s = none)
      ∨ (∃ c, p.cursor = some c ∧ dec c = none)
      ∨ (∃ c d, p.cursor = some c ∧ dec c = some d
          ∧ (cvalIsStr d.sortBy (sortByName p.sortBy) = false
             ∨ cvalIsStr d.sortOrder (sortOrderName p.sortOrder) = false))) :
    ∃ e : AppErrorM, e.statusCode = 400
      ∧ ∀ (R : Type) (serve : ValidatedQuery → R),
          getProductsController true jsNumber parseDate dec serve raw
            = .error (.app e) := by
  have hval : ∃ e, validateProductsQuery parseDate dec p = .error e := by
    cases hv : validateProductsQuery parseDate dec p with
    | error e => exact ⟨e, rfl⟩
    | ok v =>
      exfalso
      have hok := validateProductsQuery_ok hv
      rcases hbad with ⟨mp, mx, h1, h2, h3⟩ | ⟨s, h1, h2⟩ | ⟨s, h1, h2⟩
        | ⟨c, h1, h2⟩ | ⟨c, d, h1, h2, h3⟩
      · exact hok.1 mp mx h1 h2 h3
      · exact hok.2.1 s h1 h2
      · exact hok.2.2.1 s h1 h2
      · obtain ⟨d, hd, _⟩ := hok.2.2.2 c h1
        rw [h2] at hd
        exact Option.noConfusion hd
      · obtain ⟨d2, hd, hA, hB⟩ := hok.2.2.2 c h1
        rw [h2] at hd
        injection hd with hd
        subst hd
        rcases h3 with h3 | h3
        · rw [h3] at hA
          exact Bool.noConfusion hA
        · rw [h3] at hB
          exact Bool.noConfusion hB
  obtain ⟨e, he⟩ := hval
  refine ⟨e, validateProductsQuery_error_400 he, ?_⟩
  intro R serve
  unfold getProductsController
  simp only [Bool.not_true, Bool.false_eq_true, if_false, hp, he]

/-- Witness for C9: a cursor minted under `sortBy=price` replayed with
`sortBy=name` is rejected before the serving pipeline runs. -/
theorem C9_witness :
    ∃ e : AuthSvc.AppErrorM, e.statusCode = 400
      ∧ ∀ (R : Type) (serve : ValidatedQuery → R),
          getProductsController true (fun _ => none) (fun _ => none)
            (fun _ => some ⟨.cstr "price", .cstr "desc", .cnum 10, .cnum 1⟩) serve
            { sortBy := some "name", cursor := some "xyz" }
            = .error (.app e) :=
  C9_invalid_requests_rejected_before_io (fun _ => none) (fun _ => none)
    (fun _ => some ⟨.cstr "price", .cstr "desc", .cnum 10, .cnum 1⟩)
    { sortBy := some "name", cursor := some "xyz" } _ rfl
    (Or.inr (Or.inr (Or.inr (Or.inr ⟨"xyz", _, rfl, rfl, Or.inl rfl⟩))))

/-- Claim C10: a request whose `limit` fails validation (non-numeric,
non-integer, non-positive, or above 100) and whose `sortBy`/`sortOrder` are
unrecognized is not rejected: the schema silently substitutes the defaults
`limit = 20`, `sortBy = createdAt`, `sortOrder = desc`, and the request is
served normally with those values. -/
theorem C10_schema_defaults_instead_of_reject
    (jsNumber : String → Option Rat) (parseDate : String → Option Nat)
    (dec : String → Option DecodedCursor) (raw : RawQuery)
    (hlim : raw.limit.bind jsNumber = none
      ∨ ∃ x, raw.limit.bind jsNumber = some x
          ∧ ¬(x.den = 1 ∧ 0 < x.num ∧ x.num ≤ 100))
    (hsb : ∃ s, raw.sortBy = some s
      ∧ s ≠ "createdAt" ∧ s ≠ "price" ∧ s ≠ "name")
    (hso : ∃ s, raw.sortOrder = some s ∧ s ≠ "asc" ∧ s ≠ "desc")
    (hq : raw.q = none) (hcat : raw.category = none)
    (hmp : raw.minPrice = none) (hmx : raw.maxPrice = none)
    (hcf : raw.createdFrom = none) (hct : raw.createdTo = none)
    (hcur : raw.cursor = none) :
    parseQuerySchema jsNumber raw
        = .ok { limit := 20, sortBy := .createdAt, sortOrder := .desc }
    ∧ ∀ (R : Type) (serve : ValidatedQuery → R),
        getProductsController true jsNumber parseDate dec serve raw
          = .ok (serve
              ⟨20, .createdAt, .desc, none, none, none, none, none, none, none⟩) := by
  have hlimit : parseLimit jsNumber raw.limit = 20 := by
    unfold parseLimit
    rcases hlim with h | ⟨x, h1, h2⟩
    · rw [h]
    · rw [h1]
      dsimp only
      rw [if_neg h2]
  have hsb2 : parseSortBy raw.sortBy = .createdAt := by
    obtain ⟨s, hseq, h1, h2, h3⟩ := hsb
    rw [hseq]
    unfold parseSortBy
    split <;> simp_all
  have hso2 : parseSortOrder raw.sortOrder = .desc := by
    obtain ⟨s, hseq, h1, h2⟩ := hso
    rw [hseq]
    unfold parseSortOrder
    split <;> simp_all
  have hparse : parseQuerySchema jsNumber raw
      = .ok { limit := 20, sortBy := .createdAt, sortOrder := .desc } := by
    unfold parseQuerySchema
    rw [hq, hcat, hmp, hmx, hcf, hct, hcur]
    simp only [parseOptMin1, parseOptNonneg]
    rw [hlimit, hsb2, hso2]
  refine ⟨hparse, ?_⟩
  intro R serve
  unfold getProductsController
  simp only [Bool.not_true, Bool.false_eq_true, if_false, hparse]
  rfl

/-- Witness for C10: limit "abc", sortBy "xx", sortOrder "up" — all invalid —
are silently defaulted and the request is served with limit 20. -/
theorem C10_witness :
    parseQuerySchema (fun _ => none)
        { limit := some "abc", sortBy := some "xx", sortOrder := some "up" }
      = .ok { limit := 20, sortBy := .createdAt, sortOrder := .desc }
    ∧ getProductsController true (fun _ => none) (fun _ => none) (fun _ => none)
        (fun v => v.limit)
        { limit := some "abc", sortBy := some "xx", sortOrder := some "up" }
      = .ok 20 := by
  have h := C10_schema_defaults_instead_of_reject (fun _ => none) (fun _ => none)
    (fun _ => none)
    { limit := some "abc", sortBy := some "xx", sortOrder := some "up" }
    (Or.inl rfl)
    ⟨"xx", rfl, by decide, by decide, by decide⟩
    ⟨"up", rfl, by decide, by decide⟩
    rfl rfl rfl rfl rfl rfl rfl
  exact ⟨h.1, h.2 Nat (fun v => v.limit)⟩

end AuthSvc
